import Mathlib

/-!
# Verification of the immudb embedded store specification

Shallow embedding of the transactional storage engine in
src/embedded/store/immustore.go.  Machine integers are modelled as Nat
(all quantities involved are non-negative counters far from overflow),
byte strings as List Nat, and SHA-256 as an abstract injective pairing
hash (the claims under verification are about control flow, counters and
record layout, never about concrete digest values).  Fallible operations
return Except.  Functions from packages of this repository that are not
under src/ (ahtree, the precommit ring buffer, OngoingTx.validateAgainst)
are modelled from the spec and marked as such.
-/

namespace ImmuDB

/-- Error values of the store (immustore.go lines 48..108), restricted to
the ones reachable in the modelled code paths.  bufferFull models the
precommit-buffer full condition, blocked models a watcher wait that can
never be satisfied in the sequential embedding, ioError models an error
surfaced by an appendable. -/
inductive Err where
  | illegalArguments
  | illegalState
  | alreadyClosed
  | unexpectedLinkingError
  | noEntriesProvided
  | txAlreadyCommitted
  | maxTxEntriesLimitExceeded
  | nullKey
  | maxKeyLenExceeded
  | maxValueLenExceeded
  | duplicatedKey
  | maxActiveTransactionsLimitExceeded
  | invalidPrecondition
  | corruptedTxData
  | corruptedData
  | corruptedCLog
  | txNotFound
  | noMoreEntries
  | notEnoughData
  | bufferFull
  | emptyTree
  | unexpectedError
  | sourceTxNewerThanTargetTx
  | ioError
  | blocked
  deriving DecidableEq, Repr

/-- Cantor pairing, the building block of the abstract hash model. -/
def hpair (a b : Nat) : Nat := (a + b) * (a + b + 1) / 2 + b

/-- Abstract stand-in for SHA-256 over a byte list: a left fold of the
pairing function, started from 1 to separate it from the zero digest. -/
def hashList (bs : List Nat) : Nat := bs.foldl hpair 1

/-- Transaction header (immustore.go TxHeader): ID, timestamp, BlTxID,
BlRoot, PrevAlh, version, metadata, number of entries and entries-tree
root Eh.  Hash-valued fields hold abstract digests. -/
structure TxHeader where
  id : Nat
  ts : Int
  blTxID : Nat
  blRoot : Nat
  prevAlh : Nat
  version : Nat
  md : Option (List Nat)
  nentries : Nat
  eh : Nat
  deriving DecidableEq, Repr

/-- Digest of the optional header metadata. -/
def mdDigest : Option (List Nat) → Nat
  | none => 0
  | some bs => hashList bs

/-- innerHash of a header: hash over Ts, Version, metadata, NEntries,
BlTxID, BlRoot and Eh (abstract model of tx_header innerHash). -/
def TxHeader.innerHash (h : TxHeader) : Nat :=
  hashList [h.ts.natAbs, h.version, mdDigest h.md, h.nentries, h.blTxID, h.blRoot, h.eh]

/-- Alh of a header: hash over ID, PrevAlh and innerHash (abstract model
of tx_header Alh). -/
def TxHeader.alh (h : TxHeader) : Nat :=
  hashList [h.id, h.prevAlh, h.innerHash]

/-! ## Proof-generation model (DualProof, LinearProof, LinearAdvanceProof)

The store state needed by the proof generators: the sequence of committed
transaction headers (tx with ID i at list index i-1) and the AHT size. -/

structure ProofStore where
  ahtSize : Nat
  txs : List TxHeader
  deriving DecidableEq, Repr

/-- Modelled from the spec: the AHT package (embedded/ahtree) is not under
src/.  Per the spec, the AHT supports an inclusion proof of leaf i at tree
size n; it succeeds exactly when 1 <= i <= n <= size.  The returned list
is an abstract placeholder recording which proof was produced. -/
def ProofStore.ahtInclusionProof (st : ProofStore) (i n : Nat) : Except Err (List Nat) :=
  if 0 < i ∧ i ≤ n ∧ n ≤ st.ahtSize then .ok [i, n] else .error .illegalArguments

/-- Modelled from the spec: consistency proof between AHT sizes m <= n;
succeeds exactly when 1 <= m <= n <= size. -/
def ProofStore.ahtConsistencyProof (st : ProofStore) (m n : Nat) : Except Err (List Nat) :=
  if 0 < m ∧ m ≤ n ∧ n ≤ st.ahtSize then .ok [m, n] else .error .illegalArguments

/-- Sequential model of the tx reader Read step (reading committed tx
txID): fails past the last committed transaction. -/
def ProofStore.readTxAt (st : ProofStore) (txID : Nat) : Except Err TxHeader :=
  if txID = 0 then .error .illegalArguments
  else match st.txs.get? (txID - 1) with
    | some h => .ok h
    | none => .error .noMoreEntries

/-- ReadTxHeader (immustore.go line 2487) restricted to committed txs:
ErrTxNotFound past the committed count. -/
def ProofStore.ReadTxHeader (st : ProofStore) (txID : Nat) : Except Err TxHeader :=
  if txID = 0 then .error .illegalArguments
  else match st.txs.get? (txID - 1) with
    | some h => .ok h
    | none => .error .txNotFound

structure LinearProofS where
  sourceTxID : Nat
  targetTxID : Nat
  terms : List Nat
  deriving DecidableEq, Repr

/-- The loop of LinearProof (immustore.go lines 1932..1939): reads the
given number of consecutive transactions starting at txID and collects
their inner hashes. -/
def innerTermsFrom (st : ProofStore) (txID : Nat) : Nat → Except Err (List Nat)
  | 0 => .ok []
  | n + 1 =>
    match st.readTxAt txID with
    | .error e => .error e
    | .ok h =>
      match innerTermsFrom st (txID + 1) n with
      | .error e => .error e
      | .ok rest => .ok (h.innerHash :: rest)

/-- LinearProof (immustore.go lines 1908..1946): Alh of the source tx
followed by the inner hashes of the txs up to the target. -/
def ProofStore.LinearProof (st : ProofStore) (sourceTxID targetTxID : Nat) :
    Except Err LinearProofS :=
  if sourceTxID = 0 ∨ targetTxID < sourceTxID then .error .sourceTxNewerThanTargetTx
  else
    match st.readTxAt sourceTxID with
    | .error e => .error e
    | .ok h0 =>
      match innerTermsFrom st (sourceTxID + 1) (targetTxID - sourceTxID) with
      | .error e => .error e
      | .ok rest => .ok ⟨sourceTxID, targetTxID, h0.alh :: rest⟩

structure LinearAdvanceProofS where
  linearProofTerms : List Nat
  inclusionProofs : List (List Nat)
  deriving DecidableEq, Repr

/-- The loop of LinearAdvanceProof (immustore.go lines 1981..1993): for
each of the given number of interior txs starting at txID, an AHT
inclusion proof at size targetBlTxID and the inner hash of the following
tx. -/
def advanceLoop (st : ProofStore) (targetBlTxID txID : Nat) :
    Nat → Except Err (List (List Nat) × List Nat)
  | 0 => .ok ([], [])
  | n + 1 =>
    match st.ahtInclusionProof txID targetBlTxID with
    | .error e => .error e
    | .ok ip =>
      match st.readTxAt (txID + 1) with
      | .error e => .error e
      | .ok h =>
        match advanceLoop st targetBlTxID (txID + 1) n with
        | .error e => .error e
        | .ok (ips, terms) => .ok (ip :: ips, h.innerHash :: terms)

/-- LinearAdvanceProof (immustore.go lines 1950..1999).  Returns none when
targetTxID <= sourceTxID + 1 (additional proof not needed). -/
def ProofStore.LinearAdvanceProof (st : ProofStore) (sourceTxID targetTxID targetBlTxID : Nat) :
    Except Err (Option LinearAdvanceProofS) :=
  if targetTxID < sourceTxID then .error .sourceTxNewerThanTargetTx
  else if targetTxID ≤ sourceTxID + 1 then .ok none
  else
    match st.readTxAt (sourceTxID + 1) with
    | .error e => .error e
    | .ok h0 =>
      match advanceLoop st targetBlTxID (sourceTxID + 1) (targetTxID - sourceTxID - 1) with
      | .error e => .error e
      | .ok (ips, terms) => .ok (some ⟨h0.alh :: terms, ips⟩)

structure DualProofS where
  sourceTxHeader : TxHeader
  targetTxHeader : TxHeader
  inclusionProof : Option (List Nat)
  consistencyProof : Option (List Nat)
  targetBlTxAlh : Option Nat
  lastInclusionProof : Option (List Nat)
  linearProof : LinearProofS
  linearAdvanceProof : Option LinearAdvanceProofS
  deriving DecidableEq, Repr

/-- The conditional inclusion-proof step of DualProof (lines 1844..1850). -/
def dpInclusion (st : ProofStore) (src tgt : TxHeader) : Except Err (Option (List Nat)) :=
  if src.id < tgt.blTxID then
    match st.ahtInclusionProof src.id tgt.blTxID with
    | .error e => .error e
    | .ok p => .ok (some p)
  else .ok none

/-- The conditional consistency-proof step of DualProof (lines 1856..1864). -/
def dpConsistency (st : ProofStore) (src tgt : TxHeader) : Except Err (Option (List Nat)) :=
  if 0 < src.blTxID then
    match st.ahtConsistencyProof src.blTxID tgt.blTxID with
    | .error e => .error e
    | .ok p => .ok (some p)
  else .ok none

/-- The conditional last-inclusion step of DualProof (lines 1866..1880):
the Alh of tx target.BlTxID and its inclusion proof as last leaf. -/
def dpLast (st : ProofStore) (tgt : TxHeader) : Except Err (Option (Nat × List Nat)) :=
  if 0 < tgt.blTxID then
    match st.ReadTxHeader tgt.blTxID with
    | .error e => .error e
    | .ok h =>
      match st.ahtInclusionProof tgt.blTxID tgt.blTxID with
      | .error e => .error e
      | .ok lp => .ok (some (h.alh, lp))
  else .ok none

/-- DualProof (immustore.go lines 1830..1899). -/
def ProofStore.DualProof (st : ProofStore) (src tgt : TxHeader) : Except Err DualProofS :=
  if tgt.id < src.id then .error .sourceTxNewerThanTargetTx
  else
    match dpInclusion st src tgt with
    | .error e => .error e
    | .ok incl =>
      if tgt.blTxID < src.blTxID then .error .corruptedTxData
      else
        match dpConsistency st src tgt with
        | .error e => .error e
        | .ok cons =>
          match dpLast st tgt with
          | .error e => .error e
          | .ok lastp =>
            match st.LinearProof (max src.id tgt.blTxID) tgt.id with
            | .error e => .error e
            | .ok lp =>
              match st.LinearAdvanceProof src.blTxID (min src.id tgt.blTxID) tgt.blTxID with
              | .error e => .error e
              | .ok lap =>
                .ok { sourceTxHeader := src, targetTxHeader := tgt,
                      inclusionProof := incl, consistencyProof := cons,
                      targetBlTxAlh := lastp.map Prod.fst,
                      lastInclusionProof := lastp.map Prod.snd,
                      linearProof := lp, linearAdvanceProof := lap }

/-! ## Concrete fixtures: a five-transaction chain with standard linking
(BlTxID = ID - 1), used by witnesses and counterexamples. -/

/-- Header of tx i in the standard chain. -/
def mkChainHdr (i : Nat) (prev : Nat) : TxHeader :=
  { id := i, ts := 0, blTxID := i - 1, blRoot := 0, prevAlh := prev,
    version := 1, md := none, nentries := 1, eh := 0 }

def hh1 : TxHeader := mkChainHdr 1 (hashList [])
def hh2 : TxHeader := mkChainHdr 2 hh1.alh
def hh3 : TxHeader := mkChainHdr 3 hh2.alh
def hh4 : TxHeader := mkChainHdr 4 hh3.alh
def hh5 : TxHeader := mkChainHdr 5 hh4.alh

def st5 : ProofStore := { ahtSize := 5, txs := [hh1, hh2, hh3, hh4, hh5] }

/-- The dual proof from tx 3 to tx 5 over the standard chain, spelled out. -/
def dp35 : DualProofS :=
  { sourceTxHeader := hh3, targetTxHeader := hh5,
    inclusionProof := some [3, 4], consistencyProof := some [2, 4],
    targetBlTxAlh := some hh4.alh, lastInclusionProof := some [4, 4],
    linearProof := ⟨4, 5, [hh4.alh, hh5.innerHash]⟩,
    linearAdvanceProof := none }

/-- The dual proof from tx 1 to tx 5 over the standard chain, spelled out:
no LinearAdvanceProof is produced. -/
def dp15 : DualProofS :=
  { sourceTxHeader := hh1, targetTxHeader := hh5,
    inclusionProof := some [1, 4], consistencyProof := none,
    targetBlTxAlh := some hh4.alh, lastInclusionProof := some [4, 4],
    linearProof := ⟨4, 5, [hh4.alh, hh5.innerHash]⟩,
    linearAdvanceProof := none }

/-- A header of tx 3 whose BlTxID lags behind (BlTxID = 0, as with a
linear chain segment), making a LinearAdvanceProof necessary. -/
def hg1 : TxHeader :=
  { id := 3, ts := 0, blTxID := 0, blRoot := 0, prevAlh := 0,
    version := 1, md := none, nentries := 1, eh := 0 }

/-- The dual proof from hg1 to tx 5, spelled out: it carries a
LinearAdvanceProof with three linear terms and two inclusion proofs. -/
def dpg : DualProofS :=
  { sourceTxHeader := hg1, targetTxHeader := hh5,
    inclusionProof := some [3, 4], consistencyProof := none,
    targetBlTxAlh := some hh4.alh, lastInclusionProof := some [4, 4],
    linearProof := ⟨4, 5, [hh4.alh, hh5.innerHash]⟩,
    linearAdvanceProof := some ⟨[hh1.alh, hh2.innerHash, hh3.innerHash], [[1, 4], [2, 4]]⟩ }

/-! ## Engine state model

The commit-relevant state of an ImmuStore (immustore.go struct fields),
together with sequential models of the stateful operations the claims
are about.  Disk appendables are modelled as lists; fallible disk
operations draw their outcome from an oracle list of booleans (an empty
oracle means every operation succeeds). -/

/-- One record of the precommit buffer: (txID, alh, txOff, txSize). -/
structure CRecord where
  txID : Nat
  alh : Nat
  txOff : Nat
  txSize : Nat
  deriving DecidableEq, Repr

/-- Modelled from the spec: the precommit ring buffer (its implementation
file is not under src/).  Per the spec it is an in-memory ring buffer of
precommitted-but-not-yet-durable commit-log records with bounded capacity
(MaxActiveTransactions); records is the reader-to-writer window. -/
structure PrecommitBuffer where
  capacity : Nat
  records : List CRecord
  deriving DecidableEq, Repr

/-- Modelled from the spec: put appends a record at the writer end,
failing when the ring is full. -/
def PrecommitBuffer.put (b : PrecommitBuffer) (r : CRecord) : Except Err PrecommitBuffer :=
  if b.records.length < b.capacity then .ok { b with records := b.records ++ [r] }
  else .error .bufferFull

/-- Modelled from the spec: readAhead reads the i-th not-yet-committed
record, failing when fewer records are buffered. -/
def PrecommitBuffer.readAhead (b : PrecommitBuffer) (i : Nat) : Except Err CRecord :=
  match b.records.get? i with
  | some r => .ok r
  | none => .error .notEnoughData

/-- Modelled from the spec: readAhead with a Go int index. -/
def PrecommitBuffer.readAheadI (b : PrecommitBuffer) (i : Int) : Except Err CRecord :=
  if i < 0 then .error .illegalArguments else b.readAhead i.toNat

/-- Modelled from the spec: advanceReader drops the given number of
records at the reader end. -/
def PrecommitBuffer.advanceReader (b : PrecommitBuffer) (n : Nat) : Except Err PrecommitBuffer :=
  if n = 0 then .error .illegalArguments
  else if b.records.length < n then .error .notEnoughData
  else .ok { b with records := b.records.drop n }

/-- Modelled from the spec: recedeWriter walks the ring buffer back,
removing the given number of records at the writer end. -/
def PrecommitBuffer.recedeWriter (b : PrecommitBuffer) (n : Nat) : Except Err PrecommitBuffer :=
  if b.records.length < n then .error .notEnoughData
  else .ok { b with records := b.records.take (b.records.length - n) }

/-- One entry of an ongoing transaction (immustore.go EntrySpec).  The
key is an Option so that a nil Go byte slice (none) is distinguished from
an empty one. -/
structure EntrySpec where
  key : Option (List Nat)
  md : Option (List Nat)
  value : List Nat
  isValueTruncated : Bool
  hashValue : Nat
  deriving DecidableEq, Repr

/-- One filled entry of a transaction holder (immustore.go TxEntry). -/
structure TxEntryH where
  k : List Nat
  md : Option (List Nat)
  vLen : Nat
  hVal : Nat
  vOff : Nat
  deriving DecidableEq, Repr

/-- Length of optional metadata bytes. -/
def optLen : Option (List Nat) → Nat
  | none => 0
  | some bs => bs.length

/-- Serialized size of one entry (immustore.go lines 1408..1433):
kvmdLen u16, kvmd, kLen u16, key, vLen u32, vOff u64, hValue 32 bytes. -/
def entrySerSize (e : TxEntryH) : Nat :=
  2 + optLen e.md + 2 + e.k.length + 4 + 8 + 32

/-- Serialized size of a transaction (immustore.go lines 1362..1439):
header fixed part, version-dependent middle, entries, trailing Alh. -/
def txSerSize (version : Nat) (md : Option (List Nat)) (entries : List TxEntryH) : Nat :=
  8 + 8 + 8 + 32 + 32 + 2
    + (if version = 0 then 2 else 2 + optLen md + 4)
    + (entries.map entrySerSize).sum + 32

/-- A serialized transaction in the tx-log model: its offset and size in
the log and the data it carries. -/
structure SerTx where
  off : Nat
  size : Nat
  hdr : TxHeader
  entries : List TxEntryH
  deriving DecidableEq, Repr

/-- Modelled from the spec: ahtree.RootAt (embedded/ahtree is not under
src/); the root of the AHT restricted to its first n leaves, ErrEmptyTree
on an empty tree, out-of-range otherwise rejected. -/
def ahtRootAt (leaves : List Nat) (n : Nat) : Except Err Nat :=
  if leaves.isEmpty then .error .emptyTree
  else if n = 0 ∨ leaves.length < n then .error .illegalArguments
  else .ok (hashList (leaves.take n))

/-- Modelled from the spec: ahtree.ResetSize rolls uncommitted growth
back; only shrinking (or keeping) the tree is permitted. -/
def ahtResetSize (leaves : List Nat) (s : Nat) : Except Err (List Nat) :=
  if leaves.length < s then .error .illegalArguments else .ok (leaves.take s)

/-- The disk-outcome oracle: each fallible appendable operation consumes
the head outcome; an exhausted oracle means success. -/
def ioStep : List Bool → Bool × List Bool
  | [] => (true, [])
  | b :: rest => (b, rest)

/-- The commit-relevant state of the engine (immustore.go ImmuStore
fields). -/
structure GoStore where
  synced : Bool
  useExternalCommitAllowance : Bool
  closed : Bool
  maxActiveTransactions : Nat
  maxTxEntries : Nat
  maxKeyLen : Nat
  maxValueLen : Nat
  writeTxHeaderVersion : Nat
  nowTs : Int
  committedTxID : Nat
  committedAlh : Nat
  inmemPrecommittedTxID : Nat
  inmemPrecommittedAlh : Nat
  precommittedTxLogSize : Nat
  commitAllowedUpToTxID : Nat
  mandatoryMVCCUpToTxID : Nat
  txLog : List SerTx
  ahtLeaves : List Nat
  cLogBuf : PrecommitBuffer
  cLog : List (Nat × Nat)
  vLog : List Nat
  deriving DecidableEq, Repr

/-- commitAllowedUpTo (immustore.go lines 1589..1595). -/
def commitAllowedUpTo (s : GoStore) : Nat :=
  if ¬ s.useExternalCommitAllowance then s.inmemPrecommittedTxID
  else s.commitAllowedUpToTxID

/-- The loop of mayCommit / sync (immustore.go lines 1615..1632 and
2788..2805): read ring-buffer records by index, append each 12-byte
(txOff, txSize) record to the commit log, remembering the last (txID,
alh) pair.  Returns the final pair, the commit log and the oracle. -/
def commitLoop (buf : PrecommitBuffer) :
    Nat → Nat → List (Nat × Nat) → List Bool → Nat × Nat →
    (Except Err (Nat × Nat)) × List (Nat × Nat) × List Bool
  | _, 0, cLog, o, last => (.ok last, cLog, o)
  | i, n + 1, cLog, o, _ =>
    match buf.readAhead i with
    | .error e => (.error e, cLog, o)
    | .ok r =>
      if (ioStep o).1 then
        commitLoop buf (i + 1) n (cLog ++ [(r.txOff, r.txSize)]) (ioStep o).2 (r.txID, r.alh)
      else (.error .ioError, cLog, (ioStep o).2)

/-- The commit phase shared by mayCommit (immustore.go lines 1598..1656)
and sync (lines 2772..2834); withSync adds the cLog.Sync of line 2818
between flush and reader advance. -/
def commitPhase (s : GoStore) (o : List Bool) (withSync : Bool) :
    (Except Err Unit) × GoStore × List Bool :=
  let allowed := commitAllowedUpTo s
  let cnt : Int := (allowed : Int) - (s.committedTxID : Int)
  if cnt = 0 then (.ok (), s, o)
  else
    let o1 := (ioStep o).2
    if ¬ (ioStep o).1 then (.error .ioError, s, o1)
    else
      let s1 := { s with cLog := s.cLog.take s.committedTxID }
      match commitLoop s.cLogBuf 0 cnt.toNat s1.cLog o1 (0, 0) with
      | (.error e, cLog2, o2) => (.error e, { s1 with cLog := cLog2 }, o2)
      | (.ok (lastID, lastAlh), cLog2, o2) =>
        let s2 := { s1 with cLog := cLog2 }
        if lastID ≠ allowed then (.error .unexpectedError, s2, o2)
        else
          let o3 := (ioStep o2).2
          if ¬ (ioStep o2).1 then (.error .ioError, s2, o3)
          else
            let o4 := if withSync then (ioStep o3).2 else o3
            if ¬ (if withSync then (ioStep o3).1 else true) then (.error .ioError, s2, o4)
            else
              match s2.cLogBuf.advanceReader cnt.toNat with
              | .error e => (.error e, s2, o4)
              | .ok buf1 =>
                (.ok (),
                  { s2 with
                      cLogBuf := buf1
                      committedTxID := lastID
                      committedAlh := lastAlh },
                  o4)

/-- mayCommit (immustore.go lines 1598..1656). -/
def mayCommit (s : GoStore) (o : List Bool) : (Except Err Unit) × GoStore × List Bool :=
  commitPhase s o false

/-- The flush-and-fsync pass of sync over the value logs and the tx log
(immustore.go lines 2742..2765): two oracle draws per log, failing fast. -/
def flushSyncLogs : Nat → List Bool → Bool × List Bool
  | 0, o => (true, o)
  | n + 1, o =>
    let o1 := (ioStep o).2
    if ¬ (ioStep o).1 then (false, o1)
    else
      let o2 := (ioStep o1).2
      if ¬ (ioStep o1).1 then (false, o2)
      else flushSyncLogs n o2

/-- sync (immustore.go lines 2733..2834), over a store with nVLogs value
logs: no-op when nothing is precommitted beyond committedTxID, else flush
and fsync every value log and the tx log, then run the commit phase with
a final cLog fsync. -/
def syncStore (s : GoStore) (nVLogs : Nat) (o : List Bool) :
    (Except Err Unit) × GoStore × List Bool :=
  if s.inmemPrecommittedTxID = s.committedTxID then (.ok (), s, o)
  else
    let o1 := (flushSyncLogs nVLogs o).2
    if ¬ (flushSyncLogs nVLogs o).1 then (.error .ioError, s, o1)
    else
      let o2 := (flushSyncLogs 1 o1).2
      if ¬ (flushSyncLogs 1 o1).1 then (.error .ioError, s, o2)
      else commitPhase s o2 true

/-- AllowCommitUpto (immustore.go lines 1554..1586). -/
def AllowCommitUpto (s : GoStore) (txID : Nat) (o : List Bool) :
    (Except Err Unit) × GoStore × List Bool :=
  if s.closed then (.error .alreadyClosed, s, o)
  else if ¬ s.useExternalCommitAllowance then (.error .illegalState, s, o)
  else if txID ≤ s.commitAllowedUpToTxID then (.ok (), s, o)
  else
    let s1 :=
      if s.inmemPrecommittedTxID < txID then
        { s with commitAllowedUpToTxID := s.inmemPrecommittedTxID }
      else { s with commitAllowedUpToTxID := txID }
    if ¬ s.synced then mayCommit s1 o
    else (.ok (), s1, o)

/-- DiscardPrecommittedTxsSince (immustore.go lines 1498..1552).  The
aht.Size() - txsToDiscard of line 1523 is uint64 arithmetic, so a count
exceeding the tree size wraps around and makes ResetSize fail. -/
def DiscardPrecommittedTxsSince (s : GoStore) (txID : Nat) :
    (Except Err Nat) × GoStore :=
  if s.closed then (.error .alreadyClosed, s)
  else if txID = 0 then (.error .illegalArguments, s)
  else if txID ≤ s.committedTxID then (.error .illegalArguments, s)
  else if s.inmemPrecommittedTxID < txID then (.ok 0, s)
  else
    let txsToDiscard := s.inmemPrecommittedTxID + 1 - txID
    if s.ahtLeaves.length < txsToDiscard then (.error .illegalArguments, s)
    else
      match ahtResetSize s.ahtLeaves (s.ahtLeaves.length - txsToDiscard) with
      | .error e => (.error e, s)
      | .ok leaves1 =>
        let s1 := { s with ahtLeaves := leaves1 }
        match s1.cLogBuf.recedeWriter txsToDiscard with
        | .error e => (.error e, s1)
        | .ok buf1 =>
          let s2 := { s1 with cLogBuf := buf1 }
          if txID - 1 = s.committedTxID then
            (.ok txsToDiscard,
              { s2 with inmemPrecommittedTxID := s.committedTxID,
                        inmemPrecommittedAlh := s.committedAlh })
          else
            match s2.cLogBuf.readAheadI
                ((s.inmemPrecommittedTxID : Int) - s.committedTxID - 1 - txsToDiscard) with
            | .error e =>
              (.error e,
                { s2 with inmemPrecommittedTxID := s.committedTxID,
                          inmemPrecommittedAlh := s.committedAlh })
            | .ok r =>
              if r.txID ≠ txID - 1 then
                (.ok 0,
                  { s2 with inmemPrecommittedTxID := s.committedTxID,
                            inmemPrecommittedAlh := s.committedAlh })
              else
                (.ok txsToDiscard,
                  { s2 with inmemPrecommittedTxID := txID - 1,
                            inmemPrecommittedAlh := r.alh })

/-- The per-entry loop of validateEntries (immustore.go lines 2682..2699).
The Go code tracks seen keys by their base-64 encoding; base-64 encoding
is injective on byte strings, so membership in the set of encodings is
membership in the set of raw keys. -/
def validateEntriesLoop (s : GoStore) :
    List EntrySpec → List (List Nat) → Except Err Unit
  | [], _ => .ok ()
  | e :: rest, seen =>
    match e.key with
    | none => .error .nullKey
    | some k =>
      if s.maxKeyLen < k.length then .error .maxKeyLenExceeded
      else if s.maxValueLen < e.value.length then .error .maxValueLenExceeded
      else if k ∈ seen then .error .duplicatedKey
      else validateEntriesLoop s rest (k :: seen)

/-- validateEntries (immustore.go lines 2675..2702). -/
def validateEntries (s : GoStore) (entries : List EntrySpec) : Except Err Unit :=
  if s.maxTxEntries < entries.length then .error .maxTxEntriesLimitExceeded
  else validateEntriesLoop s entries []

/-- validatePreconditions (immustore.go lines 2704..2720); each
precondition is modelled by the boolean outcome of its Validate call. -/
def validatePreconditions (s : GoStore) (preconditions : List Bool) : Except Err Unit :=
  if s.maxTxEntries < preconditions.length then .error .invalidPrecondition
  else if preconditions.all (fun b => b) then .ok ()
  else .error .invalidPrecondition

/-- An ongoing transaction (ongoing_tx.go OngoingTx, restricted to the
fields the engine core reads). -/
structure OngoingTx where
  entries : List EntrySpec
  metadata : Option (List Nat)
  preconditions : List Bool
  unsafeMVCC : Bool
  requireMVCCOnFollowingTxs : Bool
  deriving DecidableEq, Repr

/-- Emptiness of optional tx metadata (TxMetadata.IsEmpty). -/
def mdIsEmpty : Option (List Nat) → Bool
  | none => true
  | some bs => bs.isEmpty

/-- Modelled from the spec: OngoingTx.validateAgainst (ongoing_tx.go is
not under src/).  For replication the ongoing transaction must be
consistent with the expected header: a supported version, matching entry
count and matching metadata; with no header it passes. -/
def OngoingTx.validateAgainst (otx : OngoingTx) (hdr : Option TxHeader) : Bool :=
  match hdr with
  | none => true
  | some h =>
    (h.version == 0 || h.version == 1) && h.nentries == otx.entries.length
      && h.md == otx.metadata

/-- appendData (immustore.go lines 1071..1099) sequentialized over one
value log: empty values keep offset 0, non-empty values are appended and
referenced as (vLogID << 56) | offset with vLogID = 1. -/
def appendValues (vLog : List Nat) : List EntrySpec → List Nat × List Nat
  | [] => ([], vLog)
  | e :: rest =>
    if e.value.length = 0 then
      (0 :: (appendValues vLog rest).1, (appendValues vLog rest).2)
    else
      ((2 ^ 56 + vLog.length) :: (appendValues (vLog ++ e.value) rest).1,
        (appendValues (vLog ++ e.value) rest).2)

/-- Filling the tx holder entries from the entry specs (immustore.go
lines 1178..1188): the value hash is computed unless the value was
exported truncated, in which case the supplied hash is adopted. -/
def fillEntries (entries : List EntrySpec) : List TxEntryH :=
  entries.map fun e =>
    { k := e.key.getD [], md := e.md, vLen := e.value.length,
      hVal := if e.isValueTruncated then e.hashValue else hashList e.value,
      vOff := 0 }

/-- Abstract model of BuildHashTree: the root Eh of the per-tx entries
tree, any injective-enough computable digest of the entry data. -/
def ehOf (entries : List TxEntryH) : Nat :=
  hashList (entries.map fun e =>
    hashList ([e.k.length] ++ e.k ++ [optLen e.md, e.vLen, e.hVal]))

/-- Assignment of the value offsets into the filled entries
(immustore.go lines 1298..1300). -/
def assignVOffs : List TxEntryH → List Nat → List TxEntryH
  | [], _ => []
  | e :: rest, [] => e :: rest
  | e :: rest, off :: offs => { e with vOff := off } :: assignVOffs rest offs

/-- The transaction holder handed to performPrecommit: fields set by
precommit before the call. -/
structure TxHolder where
  version : Nat
  md : Option (List Nat)
  entries : List TxEntryH
  eh : Nat
  deriving DecidableEq, Repr

/-- performPrecommit (immustore.go lines 1328..1481), sequential model.
Disk writes draw outcomes from the oracle: txLog.SetOffset, txLog.Append
and aht.Append each consume one.  A Go panic on an unsupported header
version is modelled as ErrUnexpectedError.  In unsynced mode the final
mayCommit runs and its error is returned, as in the source. -/
def performPrecommit (s : GoStore) (tx : TxHolder) (ts : Int) (blTxID : Nat)
    (o : List Bool) : (Except Err TxHeader) × GoStore × List Bool :=
  if s.synced ∧ s.committedTxID + s.maxActiveTransactions ≤ s.inmemPrecommittedTxID then
    (.error .maxActiveTransactionsLimitExceeded, s, o)
  else
    let o1 := (ioStep o).2
    if ¬ (ioStep o).1 then (.error .ioError, s, o1)
    else
      let s1 := { s with txLog := s.txLog.filter fun t => t.off + t.size ≤ s.precommittedTxLogSize }
      if tx.version ≠ 0 ∧ tx.version ≠ 1 then (.error .unexpectedError, s1, o1)
      else
        let blRootRes : Except Err Nat :=
          if 0 < blTxID then
            match ahtRootAt s1.ahtLeaves blTxID with
            | .error .emptyTree => .ok 0
            | .error e => .error e
            | .ok r => .ok r
          else .ok 0
        match blRootRes with
        | .error e => (.error e, s1, o1)
        | .ok blRoot =>
          let id := s.inmemPrecommittedTxID + 1
          if id ≤ blTxID then (.error .unexpectedLinkingError, s1, o1)
          else
            let hdr : TxHeader :=
              { id := id, ts := ts, blTxID := blTxID, blRoot := blRoot,
                prevAlh := s.inmemPrecommittedAlh, version := tx.version,
                md := tx.md, nentries := tx.entries.length, eh := tx.eh }
            let alh := hdr.alh
            let txSize := txSerSize tx.version tx.md tx.entries
            let o2 := (ioStep o1).2
            if ¬ (ioStep o1).1 then (.error .ioError, s1, o2)
            else
              let txOff := s.precommittedTxLogSize
              let s2 := { s1 with txLog := s1.txLog ++ [⟨txOff, txSize, hdr, tx.entries⟩] }
              match ahtResetSize s2.ahtLeaves s.inmemPrecommittedTxID with
              | .error e => (.error e, s2, o2)
              | .ok leaves1 =>
                let o3 := (ioStep o2).2
                if ¬ (ioStep o2).1 then (.error .ioError, { s2 with ahtLeaves := leaves1 }, o3)
                else
                  let s3 := { s2 with ahtLeaves := leaves1 ++ [alh] }
                  let s4 :=
                    { s3 with
                        inmemPrecommittedTxID := id
                        inmemPrecommittedAlh := alh
                        precommittedTxLogSize := s.precommittedTxLogSize + txSize }
                  match s4.cLogBuf.put ⟨id, alh, txOff, txSize⟩ with
                  | .error e => (.error e, s4, o3)
                  | .ok buf1 =>
                    let s5 := { s4 with cLogBuf := buf1 }
                    if ¬ s.synced then
                      match mayCommit s5 o3 with
                      | (.error e, s6, o4) => (.error e, s6, o4)
                      | (.ok _, s6, o4) => (.ok hdr, s6, o4)
                    else (.ok hdr, s5, o3)

/-- precommit (immustore.go lines 1135..1312), sequential model.  The
tx-holder pool and the value-log pool are modelled as always available
(MaxConcurrency/MaxIOConcurrency contention is a concurrency concern).
A WaitFor on the in-memory precommit watcher that cannot already be
satisfied is modelled as the distinguished blocked outcome.  Preconditions
reaching step 8 have all validated true, so checkPreconditions passes. -/
def precommit (s : GoStore) (otx : OngoingTx) (hdr : Option TxHeader)
    (skipIntegrityCheck : Bool) (o : List Bool) :
    (Except Err TxHeader) × GoStore × List Bool :=
  if ¬ otx.validateAgainst hdr then (.error .illegalArguments, s, o)
  else if otx.entries.isEmpty ∧ mdIsEmpty otx.metadata then (.error .noEntriesProvided, s, o)
  else
    match validateEntries s otx.entries with
    | .error e => (.error e, s, o)
    | .ok _ =>
      match validatePreconditions s otx.preconditions with
      | .error e => (.error e, s, o)
      | .ok _ =>
        let version := match hdr with
          | none => s.writeTxHeaderVersion
          | some h => h.version
        let offsets := (appendValues s.vLog otx.entries).1
        let s1 := { s with vLog := (appendValues s.vLog otx.entries).2 }
        let entries1 := fillEntries otx.entries
        let eh := ehOf entries1
        let checksRes : Except Err Unit :=
          match hdr with
          | none => .ok ()
          | some h =>
            if ¬ skipIntegrityCheck ∧ eh ≠ h.eh then .error .illegalArguments
            else if h.id ≤ s.inmemPrecommittedTxID then .error .txAlreadyCommitted
            else if s.inmemPrecommittedTxID + s.maxActiveTransactions < h.id then
              .error .maxActiveTransactionsLimitExceeded
            else if s.inmemPrecommittedTxID < h.id - 1 then .error .blocked
            else
              let blRootRes : Except Err Nat :=
                if 0 < h.blTxID then
                  match ahtRootAt s.ahtLeaves h.blTxID with
                  | .error .emptyTree => .ok 0
                  | .error e => .error e
                  | .ok r => .ok r
                else .ok 0
              match blRootRes with
              | .error e => .error e
              | .ok blRoot =>
                if blRoot ≠ h.blRoot then .error .illegalArguments
                else .ok ()
        match checksRes with
        | .error e => (.error e, s1, o)
        | .ok _ =>
          if s.closed then (.error .alreadyClosed, s1, o)
          else
            let recheckRes : Except Err Unit :=
              match hdr with
              | none => .ok ()
              | some h =>
                if h.id - 1 < s.inmemPrecommittedTxID then .error .txAlreadyCommitted
                else if s.inmemPrecommittedTxID < h.id - 1 then .error .unexpectedError
                else if s.inmemPrecommittedAlh ≠ h.prevAlh then .error .illegalArguments
                else .ok ()
            match recheckRes with
            | .error e => (.error e, s1, o)
            | .ok _ =>
              let entries2 := assignVOffs entries1 offsets
              let holder : TxHolder :=
                { version := version, md := otx.metadata, entries := entries2, eh := eh }
              match hdr with
              | none => performPrecommit s1 holder s.nowTs s.ahtLeaves.length o
              | some h => performPrecommit s1 holder h.ts h.blTxID o

/-! ## Recovery model (OpenWith)

Byte-level model of the commit-log part of OpenWith (immustore.go lines
325..365) and of the forward scan over the tx log (lines 404..439). -/

/-- Big-endian decoding of a byte list. -/
def beDecode (bs : List Nat) : Nat := bs.foldl (fun acc b => acc * 256 + b) 0

/-- The commit-log derived state established by OpenWith. -/
structure CLogOpenState where
  committedTxID : Nat
  committedTxOffset : Nat
  committedTxSize : Nat
  cLogSizeAligned : Nat
  deriving DecidableEq, Repr

/-- The commit-log part of OpenWith (immustore.go lines 325..365): align
the commit-log size down to a multiple of 12 (SetOffset discards the
trailing partial record), then read the last complete 12-byte record
(u64 BE txOffset, u32 BE txSize) and derive committedTxID; fail when the
tx log is shorter than the last committed transaction requires. -/
def openCLog (cLogBytes : List Nat) (txLogSize : Nat) : Except Err CLogOpenState :=
  let size := cLogBytes.length
  let rem := size % 12
  let aligned := size - rem
  if 0 < aligned then
    let rec12 := (cLogBytes.drop (aligned - 12)).take 12
    let txOff := beDecode (rec12.take 8)
    let txSize := beDecode ((rec12.drop 8).take 4)
    if txLogSize < txOff + txSize then .error .corruptedTxData
    else .ok { committedTxID := aligned / 12, committedTxOffset := txOff,
               committedTxSize := txSize, cLogSizeAligned := aligned }
  else .ok { committedTxID := 0, committedTxOffset := 0,
             committedTxSize := 0, cLogSizeAligned := 0 }

/-- The outcome of one tx.readFrom during the recovery scan: a short read
or parse failure, or a parsed transaction summarized by its ID, PrevAlh,
Alh and serialized size. -/
inductive TxReadItem where
  | bad
  | parsed (id : Nat) (prevAlh : Nat) (alh : Nat) (size : Nat)
  deriving DecidableEq, Repr

/-- The scan state: the precommit counters being rebuilt, the precommit
buffer being filled, and the commit log (never written by the scan). -/
structure ScanSt where
  precommittedTxID : Nat
  precommittedAlh : Nat
  precommittedTxLogSize : Nat
  cLogBuf : PrecommitBuffer
  cLog : List (Nat × Nat)
  deriving DecidableEq, Repr

/-- The recovery scan of OpenWith (immustore.go lines 404..439): read
further serialized transactions; accept one only when its ID is the
successor and its PrevAlh chains to the running Alh, stopping at the
first mismatch or failed read (returning the unread remainder); a full
precommit buffer aborts the whole open. -/
def scanPrecommitted (st : ScanSt) : List TxReadItem → Except Err (ScanSt × List TxReadItem)
  | [] => .ok (st, [])
  | .bad :: rest => .ok (st, .bad :: rest)
  | .parsed id prevAlh alh size :: rest =>
    if id = st.precommittedTxID + 1 ∧ prevAlh = st.precommittedAlh then
      match st.cLogBuf.put ⟨id, alh, st.precommittedTxLogSize, size⟩ with
      | .error e => .error e
      | .ok buf1 =>
        scanPrecommitted
          { st with
              precommittedTxID := id
              precommittedAlh := alh
              precommittedTxLogSize := st.precommittedTxLogSize + size
              cLogBuf := buf1 } rest
    else .ok (st, .parsed id prevAlh alh size :: rest)

/-- The prefix of scan items the recovery scan accepts: maximal chain of
parsed transactions with consecutive IDs and matching PrevAlh links. -/
def chainAccepted (txID alh : Nat) : List TxReadItem → List TxReadItem
  | [] => []
  | .bad :: _ => []
  | .parsed id prevAlh alh2 size :: rest =>
    if id = txID + 1 ∧ prevAlh = alh then
      .parsed id prevAlh alh2 size :: chainAccepted id alh2 rest
    else []

/-- Replaying an accepted prefix onto the scan state directly. -/
def applyAccepted (st : ScanSt) : List TxReadItem → ScanSt
  | [] => st
  | .bad :: _ => st
  | .parsed id _ alh2 size :: rest =>
    applyAccepted
      { st with
          precommittedTxID := id
          precommittedAlh := alh2
          precommittedTxLogSize := st.precommittedTxLogSize + size
          cLogBuf := { st.cLogBuf with
            records := st.cLogBuf.records ++ [⟨id, alh2, st.precommittedTxLogSize, size⟩] } } rest

/-- A concrete synced store sitting exactly at the active-transactions
limit: committedTxID 0, inmemPrecommittedTxID 2, MaxActiveTransactions 2. -/
def storeBP : GoStore :=
  { synced := true, useExternalCommitAllowance := false, closed := false,
    maxActiveTransactions := 2, maxTxEntries := 8, maxKeyLen := 16, maxValueLen := 32,
    writeTxHeaderVersion := 1, nowTs := 7,
    committedTxID := 0, committedAlh := hashList [],
    inmemPrecommittedTxID := 2, inmemPrecommittedAlh := 9,
    precommittedTxLogSize := 0, commitAllowedUpToTxID := 0,
    mandatoryMVCCUpToTxID := 0, txLog := [], ahtLeaves := [5, 6],
    cLogBuf := ⟨2, [⟨1, 4, 0, 10⟩, ⟨2, 9, 10, 10⟩]⟩, cLog := [], vLog := [] }

/-- A concrete open store with committedTxID 1 and inmemPrecommittedTxID 3,
used at the discard boundaries. -/
def storeD : GoStore :=
  { synced := false, useExternalCommitAllowance := false, closed := false,
    maxActiveTransactions := 4, maxTxEntries := 8, maxKeyLen := 16, maxValueLen := 32,
    writeTxHeaderVersion := 1, nowTs := 7,
    committedTxID := 1, committedAlh := 4,
    inmemPrecommittedTxID := 3, inmemPrecommittedAlh := 11,
    precommittedTxLogSize := 30, commitAllowedUpToTxID := 0,
    mandatoryMVCCUpToTxID := 0, txLog := [], ahtLeaves := [5, 6, 7],
    cLogBuf := ⟨4, [⟨2, 8, 10, 10⟩, ⟨3, 11, 20, 10⟩]⟩, cLog := [(0, 10)], vLog := [] }

/-- A concrete store with two precommitted, not yet committed
transactions ready in the precommit buffer. -/
def storeC : GoStore :=
  { synced := false, useExternalCommitAllowance := false, closed := false,
    maxActiveTransactions := 4, maxTxEntries := 8, maxKeyLen := 16, maxValueLen := 32,
    writeTxHeaderVersion := 1, nowTs := 7,
    committedTxID := 0, committedAlh := 3,
    inmemPrecommittedTxID := 2, inmemPrecommittedAlh := 9,
    precommittedTxLogSize := 20, commitAllowedUpToTxID := 0,
    mandatoryMVCCUpToTxID := 0, txLog := [], ahtLeaves := [4, 9],
    cLogBuf := ⟨4, [⟨1, 4, 0, 10⟩, ⟨2, 9, 10, 10⟩]⟩, cLog := [], vLog := [] }

/-- A store in external-allowance mode whose allowance (5) exceeds
inmemPrecommittedTxID (2), as left behind by discarding allowed but
uncommitted precommitted transactions. -/
def storeA : GoStore :=
  { synced := true, useExternalCommitAllowance := true, closed := false,
    maxActiveTransactions := 4, maxTxEntries := 8, maxKeyLen := 16, maxValueLen := 32,
    writeTxHeaderVersion := 1, nowTs := 7,
    committedTxID := 0, committedAlh := 3,
    inmemPrecommittedTxID := 2, inmemPrecommittedAlh := 9,
    precommittedTxLogSize := 20, commitAllowedUpToTxID := 5,
    mandatoryMVCCUpToTxID := 0, txLog := [], ahtLeaves := [4, 9],
    cLogBuf := ⟨4, [⟨1, 4, 0, 10⟩, ⟨2, 9, 10, 10⟩]⟩, cLog := [], vLog := [] }

/-- An open unsynced store in external-allowance mode with allowance 0,
committedTxID 0 and two precommitted transactions. -/
def storeE : GoStore :=
  { synced := false, useExternalCommitAllowance := true, closed := false,
    maxActiveTransactions := 4, maxTxEntries := 8, maxKeyLen := 16, maxValueLen := 32,
    writeTxHeaderVersion := 1, nowTs := 7,
    committedTxID := 0, committedAlh := 3,
    inmemPrecommittedTxID := 2, inmemPrecommittedAlh := 9,
    precommittedTxLogSize := 20, commitAllowedUpToTxID := 0,
    mandatoryMVCCUpToTxID := 0, txLog := [], ahtLeaves := [4, 9],
    cLogBuf := ⟨4, [⟨1, 4, 0, 10⟩, ⟨2, 9, 10, 10⟩]⟩, cLog := [], vLog := [] }

/-- A 13-byte commit log: one complete record (txOffset 0, txSize 5)
followed by a trailing partial byte. -/
def cBytes : List Nat := [0, 0, 0, 0, 0, 0, 0, 0, 0, 0, 0, 5, 99]

/-- A concrete recovery-scan start state: committedTxID 1, its Alh 4,
scan starting at tx-log offset 10, empty precommit buffer. -/
def scanSt0 : ScanSt :=
  { precommittedTxID := 1, precommittedAlh := 4, precommittedTxLogSize := 10,
    cLogBuf := ⟨4, []⟩, cLog := [(0, 10)] }

/-- Concrete scan items: two chaining transactions followed by a break in
the ID sequence. -/
def scanItems : List TxReadItem :=
  [.parsed 2 4 8 10, .parsed 3 8 11 10, .parsed 5 9 12 10, .parsed 6 12 13 10]

/-- An entry with key k (byte 107) and value 1. -/
def eK1 : EntrySpec := ⟨some [107], none, [49], false, 0⟩

/-- A second entry with the same key k and value 2. -/
def eK2 : EntrySpec := ⟨some [107], none, [50], false, 0⟩

/-- An ongoing transaction with two entries sharing the key k. -/
def otxDup : OngoingTx := ⟨[eK1, eK2], none, [], false, false⟩

/-- A replicated ongoing transaction carrying the single entry eK1. -/
def otxR : OngoingTx := ⟨[eK1], none, [], false, false⟩

/-- The expected header of an exported transaction with ID 1 whose Eh
matches otxR's entries. -/
def hR : TxHeader :=
  { id := 1, ts := 5, blTxID := 0, blRoot := 0, prevAlh := 0,
    version := 1, md := none, nentries := 1, eh := ehOf (fillEntries [eK1]) }

/-! ## Theorems -/

/-- On success, the optional inclusion proof of DualProof is present
exactly under the guard of immustore.go line 1844. -/
theorem dpInclusion_ok_isSome {st : ProofStore} {src tgt : TxHeader} {o : Option (List Nat)}
    (h : dpInclusion st src tgt = .ok o) : o.isSome ↔ src.id < tgt.blTxID := by
  unfold dpInclusion at h
  split at h
  · rename_i hlt
    cases hm : st.ahtInclusionProof src.id tgt.blTxID <;> rw [hm] at h
    · exact absurd h (by simp)
    · simp only [Except.ok.injEq] at h
      subst h
      simpa using hlt
  · rename_i hge
    simp only [Except.ok.injEq] at h
    subst h
    simpa using hge

/-- On success, the optional consistency proof of DualProof is present
exactly under the guard of immustore.go line 1856. -/
theorem dpConsistency_ok_isSome {st : ProofStore} {src tgt : TxHeader} {o : Option (List Nat)}
    (h : dpConsistency st src tgt = .ok o) : o.isSome ↔ 0 < src.blTxID := by
  unfold dpConsistency at h
  split at h
  · rename_i hlt
    cases hm : st.ahtConsistencyProof src.blTxID tgt.blTxID <;> rw [hm] at h
    · exact absurd h (by simp)
    · simp only [Except.ok.injEq] at h
      subst h
      simpa using hlt
  · rename_i hge
    simp only [Except.ok.injEq] at h
    subst h
    simpa using hge

/-- A successful DualProof decomposes into successful stages. -/
theorem DualProof_ok_parts {st : ProofStore} {src tgt : TxHeader} {p : DualProofS}
    (h : st.DualProof src tgt = .ok p) :
    dpInclusion st src tgt = .ok p.inclusionProof ∧
    dpConsistency st src tgt = .ok p.consistencyProof ∧
    st.LinearAdvanceProof src.blTxID (min src.id tgt.blTxID) tgt.blTxID
      = .ok p.linearAdvanceProof := by
  unfold ProofStore.DualProof at h
  repeat' split at h
  all_goals first
    | (simp_all; done)
    | (injection h with h; subst h; refine ⟨?_, ?_, ?_⟩ <;> assumption)

/-- A successful AHT inclusion proof pins its placeholder value and its
range conditions. -/
theorem ahtInclusionProof_ok {st : ProofStore} {i n : Nat} {p : List Nat}
    (h : st.ahtInclusionProof i n = .ok p) :
    p = [i, n] ∧ 0 < i ∧ i ≤ n ∧ n ≤ st.ahtSize := by
  unfold ProofStore.ahtInclusionProof at h
  split at h
  · rename_i hc
    simp only [Except.ok.injEq] at h
    exact ⟨h.symm, hc⟩
  · exact absurd h (by simp)

/-- The LinearAdvanceProof loop produces one inclusion proof per interior
transaction, each at size targetBlTxID. -/
theorem advanceLoop_ok {st : ProofStore} {c : Nat} :
    ∀ (n t : Nat) (ips : List (List Nat)) (terms : List Nat),
    advanceLoop st c t n = .ok (ips, terms) →
    ips.length = n ∧ terms.length = n ∧
      ∀ k, k < n → ips.get? k = some [t + k, c] := by
  intro n
  induction n with
  | zero =>
    intro t ips terms h
    unfold advanceLoop at h
    simp only [Except.ok.injEq, Prod.mk.injEq] at h
    obtain ⟨h1, h2⟩ := h
    subst h1; subst h2
    simp
  | succ n ih =>
    intro t ips terms h
    unfold advanceLoop at h
    repeat' split at h
    all_goals first
      | (exact Except.noConfusion h)
      | (simp only [Except.ok.injEq, Prod.mk.injEq] at h
         obtain ⟨hips, hterms⟩ := h
         subst hips; subst hterms
         obtain ⟨hlen1, hlen2, hget⟩ := ih (t + 1) _ _ (by assumption)
         obtain ⟨hipv, -⟩ := ahtInclusionProof_ok (i := t) (n := c) (by assumption)
         subst hipv
         refine ⟨by simp [hlen1], by simp [hlen2], ?_⟩
         intro k hk
         cases k with
         | zero => simp
         | succ k =>
           simp only [List.get?_cons_succ]
           rw [hget k (by omega)]
           have harith : t + 1 + k = t + (k + 1) := by omega
           rw [harith])

/-- A successful LinearAdvanceProof is present exactly when the segment
(sourceTxID, targetTxID] holds more than one transaction. -/
theorem LinearAdvanceProof_ok_isSome {st : ProofStore} {a b c : Nat}
    {o : Option LinearAdvanceProofS}
    (h : st.LinearAdvanceProof a b c = .ok o) : o.isSome ↔ a + 1 < b := by
  unfold ProofStore.LinearAdvanceProof at h
  repeat' split at h
  all_goals first
    | (exact Except.noConfusion h)
    | (injection h with h; subst h; simp only [Option.isSome_none,
        Option.isSome_some, Bool.false_eq_true, false_iff, true_iff]; omega)

/-- When a LinearAdvanceProof is produced for (a, b] at tree size c, it
has b - a linear terms and b - a - 1 inclusion proofs, the k-th one for
transaction a+1+k at size c. -/
theorem LinearAdvanceProof_ok_some {st : ProofStore} {a b c : Nat}
    {lap : LinearAdvanceProofS}
    (h : st.LinearAdvanceProof a b c = .ok (some lap)) :
    lap.linearProofTerms.length = b - a ∧
    lap.inclusionProofs.length = b - a - 1 ∧
    ∀ k, k < b - a - 1 → lap.inclusionProofs.get? k = some [a + 1 + k, c] := by
  unfold ProofStore.LinearAdvanceProof at h
  repeat' split at h
  all_goals first
    | (exact Except.noConfusion h)
    | (injection h with h; exact Option.noConfusion h)
    | (injection h with h
       injection h with h
       obtain ⟨hlen1, hlen2, hget⟩ :=
         advanceLoop_ok (b - a - 1) (a + 1) _ _ (by assumption)
       subst h
       refine ⟨?_, ?_, ?_⟩
       · simp only [List.length_cons]
         omega
       · simpa using hlen1
       · intro k hk
         simpa using hget k (by omega))

/-- C5: DualProof(source, target) fails with SourceTxNewerThanTargetTx
when source.ID > target.ID; when it succeeds, the proof carries an AHT
inclusion proof of source.ID at tree size target.BlTxID exactly when
source.ID < target.BlTxID, and an AHT consistency proof between
source.BlTxID and target.BlTxID exactly when source.BlTxID > 0. -/
theorem DualProof_guard_and_optional_proofs (st : ProofStore) (src tgt : TxHeader) :
    (tgt.id < src.id → st.DualProof src tgt = .error .sourceTxNewerThanTargetTx) ∧
    (∀ p : DualProofS, st.DualProof src tgt = .ok p →
      (p.inclusionProof.isSome ↔ src.id < tgt.blTxID) ∧
      (p.consistencyProof.isSome ↔ 0 < src.blTxID)) := by
  constructor
  · intro hlt
    unfold ProofStore.DualProof
    simp [hlt]
  · intro p hp
    obtain ⟨h1, h2, -⟩ := DualProof_ok_parts hp
    exact ⟨dpInclusion_ok_isSome h1, dpConsistency_ok_isSome h2⟩

/-- Witness for C5 on the five-transaction chain: tx 5 as source and tx 3
as target trips the guard, and the successful proof from tx 3 to tx 5 has
both optional AHT proofs. -/
theorem DualProof_guard_and_optional_proofs_witness :
    st5.DualProof hh5 hh3 = .error .sourceTxNewerThanTargetTx ∧
    ((dp35.inclusionProof.isSome ↔ hh3.id < hh5.blTxID) ∧
      (dp35.consistencyProof.isSome ↔ 0 < hh3.blTxID)) :=
  ⟨(DualProof_guard_and_optional_proofs st5 hh5 hh3).1 (by decide),
    (DualProof_guard_and_optional_proofs st5 hh3 hh5).2 dp35 rfl⟩

/-- C1 counterexample: over the standard five-transaction chain
(BlTxID = ID - 1), DualProof from tx 1 to tx 5 succeeds with
target.ID > source.ID + 1, yet its LinearAdvanceProof field is nil,
contradicting the claim that a LinearAdvanceProof is included exactly
when target.ID > source.ID + 1. -/
theorem DualProof_linearAdvance_claim_counterexample :
    hh1.id + 1 < hh5.id ∧
    st5.DualProof hh1 hh5 = .ok dp15 ∧
    dp15.linearAdvanceProof = none :=
  ⟨by decide, rfl, rfl⟩

/-- C1 amended: a successful DualProof(source, target) includes a
LinearAdvanceProof exactly when source.BlTxID + 1 < min(source.ID,
target.BlTxID); when included, it has one linear term per transaction of
the segment (source.BlTxID, min(source.ID, target.BlTxID)] and an AHT
inclusion proof at size target.BlTxID for each interior transaction of
that segment. -/
theorem DualProof_linearAdvance_condition (st : ProofStore) (src tgt : TxHeader)
    (p : DualProofS) (hp : st.DualProof src tgt = .ok p) :
    (p.linearAdvanceProof.isSome ↔ src.blTxID + 1 < min src.id tgt.blTxID) ∧
    (∀ lap, p.linearAdvanceProof = some lap →
      lap.linearProofTerms.length = min src.id tgt.blTxID - src.blTxID ∧
      lap.inclusionProofs.length = min src.id tgt.blTxID - src.blTxID - 1 ∧
      ∀ k, k < min src.id tgt.blTxID - src.blTxID - 1 →
        lap.inclusionProofs.get? k = some [src.blTxID + 1 + k, tgt.blTxID]) := by
  obtain ⟨-, -, h5⟩ := DualProof_ok_parts hp
  refine ⟨LinearAdvanceProof_ok_isSome h5, ?_⟩
  intro lap hl
  rw [hl] at h5
  exact LinearAdvanceProof_ok_some h5

/-- Witness for amended C1: the dual proof from hg1 (ID 3, BlTxID 0) to
tx 5 carries a LinearAdvanceProof with three linear terms and two
inclusion proofs at size 4. -/
theorem DualProof_linearAdvance_condition_witness :
    (dpg.linearAdvanceProof.isSome ↔ hg1.blTxID + 1 < min hg1.id hh5.blTxID) ∧
    (∀ lap, dpg.linearAdvanceProof = some lap →
      lap.linearProofTerms.length = min hg1.id hh5.blTxID - hg1.blTxID ∧
      lap.inclusionProofs.length = min hg1.id hh5.blTxID - hg1.blTxID - 1 ∧
      ∀ k, k < min hg1.id hh5.blTxID - hg1.blTxID - 1 →
        lap.inclusionProofs.get? k = some [hg1.blTxID + 1 + k, hh5.blTxID]) :=
  DualProof_linearAdvance_condition st5 hg1 hh5 dpg rfl

/-- C2: in synced mode, a precommit arriving when inmemPrecommittedTxID
minus committedTxID equals MaxActiveTransactions fails with
MaxActiveTransactionsLimitExceeded and leaves the whole store state
untouched: nothing is appended to the tx log, the AHT or the precommit
buffer, and inmemPrecommittedTxID is unchanged. -/
theorem performPrecommit_backpressure (s : GoStore) (tx : TxHolder) (ts : Int)
    (blTxID : Nat) (o : List Bool)
    (hs : s.synced = true)
    (hci : s.committedTxID ≤ s.inmemPrecommittedTxID)
    (hfull : s.inmemPrecommittedTxID - s.committedTxID = s.maxActiveTransactions) :
    performPrecommit s tx ts blTxID o = (.error .maxActiveTransactionsLimitExceeded, s, o) := by
  unfold performPrecommit
  rw [if_pos]
  exact ⟨by simp [hs], by omega⟩

/-- Witness for C2 at the concrete store storeBP sitting exactly at the
limit. -/
theorem performPrecommit_backpressure_witness :
    performPrecommit storeBP ⟨1, none, [], 0⟩ 7 0 []
      = (.error .maxActiveTransactionsLimitExceeded, storeBP, []) :=
  performPrecommit_backpressure storeBP ⟨1, none, [], 0⟩ 7 0 [] rfl
    (by decide) (by decide)

/-- C10: on an open store, DiscardPrecommittedTxsSince rejects txID 0 and
txID at or below committedTxID with an illegal-argument error and changes
nothing, and returns count 0 with no error and no state change for any
txID beyond inmemPrecommittedTxID. -/
theorem DiscardPrecommittedTxsSince_boundaries (s : GoStore) (txID : Nat)
    (hOpen : s.closed = false) :
    (txID = 0 → DiscardPrecommittedTxsSince s txID = (.error .illegalArguments, s)) ∧
    (txID ≤ s.committedTxID → 0 < txID →
      DiscardPrecommittedTxsSince s txID = (.error .illegalArguments, s)) ∧
    (s.committedTxID ≤ s.inmemPrecommittedTxID → s.inmemPrecommittedTxID < txID →
      DiscardPrecommittedTxsSince s txID = (.ok 0, s)) := by
  refine ⟨?_, ?_, ?_⟩
  · intro h0
    unfold DiscardPrecommittedTxsSince
    simp [hOpen, h0]
  · intro hle hpos
    unfold DiscardPrecommittedTxsSince
    rw [if_neg (by simp [hOpen]), if_neg (by omega), if_pos hle]
  · intro hinv hgt
    unfold DiscardPrecommittedTxsSince
    rw [if_neg (by simp [hOpen]), if_neg (by omega), if_neg (by omega), if_pos hgt]

/-- Witness for C10 at the concrete store storeD (committedTxID 1,
inmemPrecommittedTxID 3): txID 0 and 1 are rejected, txID 9 is a no-op. -/
theorem DiscardPrecommittedTxsSince_boundaries_witness :
    DiscardPrecommittedTxsSince storeD 0 = (.error .illegalArguments, storeD) ∧
    DiscardPrecommittedTxsSince storeD 1 = (.error .illegalArguments, storeD) ∧
    DiscardPrecommittedTxsSince storeD 9 = (.ok 0, storeD) :=
  ⟨(DiscardPrecommittedTxsSince_boundaries storeD 0 rfl).1 rfl,
    (DiscardPrecommittedTxsSince_boundaries storeD 1 rfl).2.1 (by decide) (by decide),
    (DiscardPrecommittedTxsSince_boundaries storeD 9 rfl).2.2 (by decide) (by decide)⟩

/-- C6: on open, a commit log whose length is not a multiple of 12
behaves exactly as if the trailing partial record were discarded;
committedTxID is the aligned length divided by 12 and committedTxOffset /
committedTxSize are decoded from the last complete 12-byte record. -/
theorem openCLog_discards_trailing_fragment (bytes : List Nat) (txLogSize : Nat)
    (hrem : bytes.length % 12 ≠ 0) :
    openCLog bytes txLogSize
      = openCLog (bytes.take (bytes.length - bytes.length % 12)) txLogSize ∧
    (12 ≤ bytes.length → ∀ st1, openCLog bytes txLogSize = .ok st1 →
      st1.committedTxID = bytes.length / 12 ∧
      st1.cLogSizeAligned = 12 * (bytes.length / 12) ∧
      st1.committedTxOffset
        = beDecode ((bytes.drop (bytes.length - bytes.length % 12 - 12)).take 8) ∧
      st1.committedTxSize
        = beDecode (((bytes.drop (bytes.length - bytes.length % 12 - 12)).drop 8).take 4)) := by
  have hlen : (bytes.take (bytes.length - bytes.length % 12)).length
      = bytes.length - bytes.length % 12 := by
    rw [List.length_take]
    omega
  have hmod : (bytes.length - bytes.length % 12) % 12 = 0 := by omega
  constructor
  · simp only [openCLog, hlen, hmod, Nat.sub_zero]
    by_cases hpos : 0 < bytes.length - bytes.length % 12
    · have h12 : 12 ≤ bytes.length - bytes.length % 12 := by omega
      have hslice : (bytes.take (bytes.length - bytes.length % 12)).drop
            (bytes.length - bytes.length % 12 - 12)
          = (bytes.drop (bytes.length - bytes.length % 12 - 12)).take 12 := by
        rw [List.drop_take]
        congr 1
        omega
      rw [if_pos hpos, if_pos hpos, hslice]
      simp only [List.take_take]
      norm_num
    · rw [if_neg hpos, if_neg hpos]
  · intro h12 st1 hok
    have hge : 12 ≤ bytes.length - bytes.length % 12 := by omega
    simp only [openCLog] at hok
    rw [if_pos (by omega : 0 < bytes.length - bytes.length % 12)] at hok
    split at hok
    · exact Except.noConfusion hok
    · injection hok with hok
      subst hok
      dsimp only
      refine ⟨by omega, by omega, ?_, ?_⟩
      · simp only [List.take_take]
        norm_num
      · simp only [List.drop_take, List.take_take]
        norm_num

/-- Witness for C6 on the 13-byte commit log cBytes. -/
theorem openCLog_discards_trailing_fragment_witness :
    openCLog cBytes 5 = openCLog (cBytes.take (cBytes.length - cBytes.length % 12)) 5 ∧
    ((⟨1, 0, 5, 12⟩ : CLogOpenState).committedTxID = cBytes.length / 12 ∧
      (⟨1, 0, 5, 12⟩ : CLogOpenState).cLogSizeAligned = 12 * (cBytes.length / 12) ∧
      (⟨1, 0, 5, 12⟩ : CLogOpenState).committedTxOffset
        = beDecode ((cBytes.drop (cBytes.length - cBytes.length % 12 - 12)).take 8) ∧
      (⟨1, 0, 5, 12⟩ : CLogOpenState).committedTxSize
        = beDecode (((cBytes.drop (cBytes.length - cBytes.length % 12 - 12)).drop 8).take 4)) :=
  ⟨(openCLog_discards_trailing_fragment cBytes 5 (by decide)).1,
    (openCLog_discards_trailing_fragment cBytes 5 (by decide)).2 (by decide)
      ⟨1, 0, 5, 12⟩ rfl⟩

/-- applyAccepted never touches the commit log. -/
theorem applyAccepted_cLog : ∀ (l : List TxReadItem) (st : ScanSt),
    (applyAccepted st l).cLog = st.cLog := by
  intro l
  induction l with
  | nil => intro st; rfl
  | cons it rest ih =>
    intro st
    cases it with
    | bad => rfl
    | parsed id prevAlh alh2 size =>
      unfold applyAccepted
      exact ih _

/-- Replaying the accepted chain lifts precommittedTxID by exactly the
number of accepted transactions. -/
theorem applyAccepted_chain_txID : ∀ (items : List TxReadItem) (st : ScanSt),
    (applyAccepted st (chainAccepted st.precommittedTxID st.precommittedAlh items)).precommittedTxID
      = st.precommittedTxID
        + (chainAccepted st.precommittedTxID st.precommittedAlh items).length := by
  intro items
  induction items with
  | nil => intro st; rfl
  | cons it rest ih =>
    intro st
    cases it with
    | bad => rfl
    | parsed id prevAlh alh2 size =>
      by_cases hacc : id = st.precommittedTxID + 1 ∧ prevAlh = st.precommittedAlh
      · simp only [chainAccepted, if_pos hacc, applyAccepted]
        have := ih ({ st with
            precommittedTxID := id
            precommittedAlh := alh2
            precommittedTxLogSize := st.precommittedTxLogSize + size
            cLogBuf := { st.cLogBuf with
              records := st.cLogBuf.records
                ++ [⟨id, alh2, st.precommittedTxLogSize, size⟩] } } : ScanSt)
        simp only [List.length_cons] at this ⊢
        rw [this]
        omega
      · simp only [chainAccepted, if_neg hacc, applyAccepted, List.length_nil]
        omega

/-- C7: the recovery scan accepts exactly the maximal prefix of parsed
transactions whose IDs are consecutive and whose PrevAlh values chain to
the running Alh, fills the precommit buffer with them, stops at the first
mismatch or short read leaving the remainder unread, lifts
inmemPrecommittedTxID by the accepted count, and writes no commit-log
record. -/
theorem scanPrecommitted_chain : ∀ (items : List TxReadItem) (st : ScanSt),
    st.cLogBuf.records.length
        + (chainAccepted st.precommittedTxID st.precommittedAlh items).length
      ≤ st.cLogBuf.capacity →
    scanPrecommitted st items
      = .ok (applyAccepted st (chainAccepted st.precommittedTxID st.precommittedAlh items),
          items.drop (chainAccepted st.precommittedTxID st.precommittedAlh items).length) ∧
    (applyAccepted st (chainAccepted st.precommittedTxID st.precommittedAlh items)).cLog
      = st.cLog ∧
    (applyAccepted st (chainAccepted st.precommittedTxID st.precommittedAlh items)).precommittedTxID
      = st.precommittedTxID
        + (chainAccepted st.precommittedTxID st.precommittedAlh items).length := by
  intro items
  induction items with
  | nil =>
    intro st _
    exact ⟨rfl, applyAccepted_cLog _ _, applyAccepted_chain_txID [] st⟩
  | cons it rest ih =>
    intro st hcap
    refine ⟨?_, applyAccepted_cLog _ _, applyAccepted_chain_txID (it :: rest) st⟩
    cases it with
    | bad => rfl
    | parsed id prevAlh alh2 size =>
      by_cases hacc : id = st.precommittedTxID + 1 ∧ prevAlh = st.precommittedAlh
      · rw [chainAccepted, if_pos hacc] at hcap ⊢
        have hlt : st.cLogBuf.records.length < st.cLogBuf.capacity := by
          simp only [List.length_cons] at hcap
          omega
        unfold scanPrecommitted
        rw [if_pos hacc]
        split
        · rename_i e heq
          unfold PrecommitBuffer.put at heq
          rw [if_pos hlt] at heq
          exact Except.noConfusion heq
        · rename_i buf1 heq
          unfold PrecommitBuffer.put at heq
          rw [if_pos hlt] at heq
          injection heq with heq
          subst heq
          refine (ih
            { precommittedTxID := id
              precommittedAlh := alh2
              precommittedTxLogSize := st.precommittedTxLogSize + size
              cLogBuf :=
                { capacity := st.cLogBuf.capacity
                  records := st.cLogBuf.records
                    ++ [⟨id, alh2, st.precommittedTxLogSize, size⟩] }
              cLog := st.cLog } ?_).1
          dsimp only
          simp only [List.length_append, List.length_cons, List.length_nil] at hcap ⊢
          omega
      · rw [chainAccepted, if_neg hacc]
        unfold scanPrecommitted
        rw [if_neg ?hc]
        case hc =>
          intro hcon
          exact hacc ⟨hcon.1, hcon.2⟩
        rfl

/-- Witness for C7: from committedTxID 1 the scan accepts the two
chaining transactions and stops at the ID gap. -/
theorem scanPrecommitted_chain_witness :
    scanPrecommitted scanSt0 scanItems
      = .ok (applyAccepted scanSt0
          (chainAccepted scanSt0.precommittedTxID scanSt0.precommittedAlh scanItems),
        scanItems.drop
          (chainAccepted scanSt0.precommittedTxID scanSt0.precommittedAlh scanItems).length) ∧
    (applyAccepted scanSt0
        (chainAccepted scanSt0.precommittedTxID scanSt0.precommittedAlh scanItems)).cLog
      = scanSt0.cLog ∧
    (applyAccepted scanSt0
        (chainAccepted scanSt0.precommittedTxID scanSt0.precommittedAlh scanItems)).precommittedTxID
      = scanSt0.precommittedTxID
        + (chainAccepted scanSt0.precommittedTxID scanSt0.precommittedAlh scanItems).length :=
  scanPrecommitted_chain scanItems scanSt0 (by decide)

theorem commitLoop_ok_spec (buf : PrecommitBuffer) :
    ∀ (n i : Nat) (cLog : List (Nat × Nat)) (o : List Bool) (last res : Nat × Nat)
      (cLog2 : List (Nat × Nat)) (o2 : List Bool),
    commitLoop buf i n cLog o last = (.ok res, cLog2, o2) →
    cLog2 = cLog ++ ((buf.records.drop i).take n).map (fun r => (r.txOff, r.txSize)) ∧
    (n = 0 → res = last) ∧
    (0 < n →
      (buf.records.get? (i + n - 1)).map CRecord.txID = some res.1 ∧
      (buf.records.get? (i + n - 1)).map CRecord.alh = some res.2) := by
  intro n
  induction n with
  | zero =>
    intro i cLog o last res cLog2 o2 h
    unfold commitLoop at h
    simp only [Prod.mk.injEq, Except.ok.injEq] at h
    obtain ⟨h1, h2, h3⟩ := h
    subst h2
    refine ⟨by simp, fun _ => h1.symm, fun hc => absurd hc (by omega)⟩
  | succ n ih =>
    intro i cLog o last res cLog2 o2 h
    unfold commitLoop at h
    repeat' split at h
    all_goals first
      | (exfalso
         simp only [Prod.mk.injEq] at h
         exact absurd h.1 (by simp))
      | (rename_i r hr hio
         obtain ⟨hc, hres0, hresPos⟩ := ih _ _ _ _ _ _ _ h
         have hget : buf.records.get? i = some r := by
           unfold PrecommitBuffer.readAhead at hr
           rcases hg : buf.records.get? i with _ | r2 <;> rw [hg] at hr
           · exact Except.noConfusion hr
           · injection hr with hr
             rw [hr]
         obtain ⟨hlt, hgeteq⟩ := List.get?_eq_some.mp hget
         have hdrop : buf.records.drop i = r :: buf.records.drop (i + 1) := by
           subst hgeteq
           exact List.drop_eq_getElem_cons hlt
         refine ⟨?_, fun hc => absurd hc (by omega), ?_⟩
         · simp [hc, hdrop, List.append_assoc]
         · intro _
           have hidx : i + (n + 1) - 1 = i + n := by omega
           rw [hidx]
           cases n with
           | zero =>
             have hres := hres0 rfl
             subst hres
             have hget2 : buf.records[i]? = some r := by
               simpa [List.get?_eq_getElem?] using hget
             exact ⟨by simp [hget2], by simp [hget2]⟩
           | succ m =>
             have := hresPos (by omega)
             have hidx2 : i + 1 + (m + 1) - 1 = i + (m + 1) := by omega
             rw [hidx2] at this
             exact this)


theorem commitPhase_atomic (s : GoStore) (o : List Bool) (w : Bool) :
    (∀ e, (commitPhase s o w).1 = .error e →
      (commitPhase s o w).2.1.committedTxID = s.committedTxID ∧
      (commitPhase s o w).2.1.committedAlh = s.committedAlh) ∧
    ((commitPhase s o w).1 = .ok () →
      (commitPhase s o w).2.1.committedTxID = commitAllowedUpTo s) ∧
    ((commitPhase s o w).1 = .ok () → s.committedTxID ≠ commitAllowedUpTo s →
      (commitPhase s o w).2.1.cLog
        = s.cLog.take s.committedTxID
          ++ (s.cLogBuf.records.take (commitAllowedUpTo s - s.committedTxID)).map
            (fun r => (r.txOff, r.txSize)) ∧
      (s.cLogBuf.records.get? (commitAllowedUpTo s - s.committedTxID - 1)).map CRecord.txID
        = some (commitAllowedUpTo s)) := by
  rcases hcp : commitPhase s o w with ⟨r, st2, o2⟩
  simp only [hcp]
  simp only [commitPhase] at hcp
  repeat' split at hcp
  all_goals (
    injection hcp with h1 h23
    injection h23 with h2 h3)
  all_goals try subst h1
  all_goals try subst h2
  all_goals try subst h3
  -- branch-by-branch
  all_goals first
    | -- error branches: result is an error, state keeps committedTxID/Alh
      (refine ⟨fun e he => ⟨rfl, rfl⟩, fun hok => Except.noConfusion hok,
        fun hok _ => Except.noConfusion hok⟩)
    | -- count-zero branch
      (refine ⟨fun e he => Except.noConfusion he, fun _ => by omega,
        fun _ hne => absurd (by omega) hne⟩)
    | -- success branch
      (rename_i la lb cLog2v o2v hloopEq hfuseN hflushN hw hsyncN xadv buf1 hadv
       obtain ⟨hc, -, hpos⟩ := commitLoop_ok_spec s.cLogBuf _ _ _ _ _ _ _ _ hloopEq
       have hla : la = commitAllowedUpTo s := by omega
       have hcnt0 : ((commitAllowedUpTo s : Int) - (s.committedTxID : Int)).toNat ≠ 0 := by
         intro h0
         rw [h0] at hadv
         unfold PrecommitBuffer.advanceReader at hadv
         simp at hadv
       have hcntEq : ((commitAllowedUpTo s : Int) - (s.committedTxID : Int)).toNat
           = commitAllowedUpTo s - s.committedTxID := by omega
       obtain ⟨hid, halh⟩ := hpos (by omega)
       refine ⟨fun e he => Except.noConfusion he, fun _ => hla, fun _ hne => ⟨?_, ?_⟩⟩
       · show cLog2v = _
         rw [hc]
         simp [hcntEq]
       · simpa [hcntEq, hla] using hid)


theorem commitPhase_advanced (s : GoStore) (o : List Bool) (w : Bool)
    (hne : (commitPhase s o w).2.1.committedTxID ≠ s.committedTxID) :
    (commitPhase s o w).1 = .ok () ∧
    (commitPhase s o w).2.1.committedTxID = commitAllowedUpTo s ∧
    (commitPhase s o w).2.1.cLog
      = s.cLog.take s.committedTxID
        ++ (s.cLogBuf.records.take (commitAllowedUpTo s - s.committedTxID)).map
          (fun r => (r.txOff, r.txSize)) ∧
    (s.cLogBuf.records.get? (commitAllowedUpTo s - s.committedTxID - 1)).map CRecord.txID
      = some (commitAllowedUpTo s) := by
  have hm := commitPhase_atomic s o w
  rcases hres : (commitPhase s o w).1 with e | u
  · exact absurd (hm.1 e hres).1 hne
  · cases u
    have hb := hm.2.1 hres
    have hcne : s.committedTxID ≠ commitAllowedUpTo s := by
      intro h
      exact hne (by rw [hb, h])
    exact ⟨rfl, hb, hm.2.2 hres hcne⟩

theorem syncStore_cases (s : GoStore) (nVLogs : Nat) (oS : List Bool) :
    syncStore s nVLogs oS = (.ok (), s, oS) ∨
    (∃ o', syncStore s nVLogs oS = (.error .ioError, s, o')) ∨
    syncStore s nVLogs oS
      = commitPhase s ((flushSyncLogs 1 (flushSyncLogs nVLogs oS).2).2) true := by
  simp only [syncStore]
  by_cases hg : s.inmemPrecommittedTxID = s.committedTxID
  · left
    rw [if_pos hg]
  · rw [if_neg hg]
    by_cases hv : (flushSyncLogs nVLogs oS).1 = true
    · rw [if_neg (by simpa using hv)]
      by_cases ht : (flushSyncLogs 1 (flushSyncLogs nVLogs oS).2).1 = true
      · rw [if_neg (by simpa using ht)]
        right; right; rfl
      · rw [if_pos (by simpa using ht)]
        right; left
        exact ⟨_, rfl⟩
    · rw [if_pos (by simpa using hv)]
      right; left
      exact ⟨_, rfl⟩

/-- C8: commit is atomic with respect to failure.  For mayCommit and for
the commit phase of sync, any error (ring-buffer read, commit-log record
append, or flush) leaves committedTxID and committedAlh unchanged; when
they do advance, the call succeeded, they advance exactly to the allowed
ceiling, the commit log holds the appended records for every transaction
from committedTxID+1 up to that ceiling, and the last buffered record is
the ceiling transaction (appends and flush happened before the
advance). -/
theorem mayCommit_sync_failure_atomic (s : GoStore) (nVLogs : Nat) (o oS : List Bool) :
    (∀ e, (mayCommit s o).1 = .error e →
      (mayCommit s o).2.1.committedTxID = s.committedTxID ∧
      (mayCommit s o).2.1.committedAlh = s.committedAlh) ∧
    ((mayCommit s o).2.1.committedTxID ≠ s.committedTxID →
      (mayCommit s o).1 = .ok () ∧
      (mayCommit s o).2.1.committedTxID = commitAllowedUpTo s ∧
      (mayCommit s o).2.1.cLog
        = s.cLog.take s.committedTxID
          ++ (s.cLogBuf.records.take (commitAllowedUpTo s - s.committedTxID)).map
            (fun r => (r.txOff, r.txSize)) ∧
      (s.cLogBuf.records.get? (commitAllowedUpTo s - s.committedTxID - 1)).map CRecord.txID
        = some (commitAllowedUpTo s)) ∧
    (∀ e, (syncStore s nVLogs oS).1 = .error e →
      (syncStore s nVLogs oS).2.1.committedTxID = s.committedTxID ∧
      (syncStore s nVLogs oS).2.1.committedAlh = s.committedAlh) ∧
    ((syncStore s nVLogs oS).2.1.committedTxID ≠ s.committedTxID →
      (syncStore s nVLogs oS).1 = .ok () ∧
      (syncStore s nVLogs oS).2.1.committedTxID = commitAllowedUpTo s ∧
      (syncStore s nVLogs oS).2.1.cLog
        = s.cLog.take s.committedTxID
          ++ (s.cLogBuf.records.take (commitAllowedUpTo s - s.committedTxID)).map
            (fun r => (r.txOff, r.txSize)) ∧
      (s.cLogBuf.records.get? (commitAllowedUpTo s - s.committedTxID - 1)).map CRecord.txID
        = some (commitAllowedUpTo s)) := by
  refine ⟨(commitPhase_atomic s o false).1, commitPhase_advanced s o false, ?_, ?_⟩
  · intro e he
    rcases syncStore_cases s nVLogs oS with hc | ⟨o', hc⟩ | hc
    · rw [hc] at he
      exact Except.noConfusion he
    · rw [hc]
      exact ⟨rfl, rfl⟩
    · rw [hc] at he ⊢
      exact (commitPhase_atomic s _ true).1 e he
  · intro hne
    rcases syncStore_cases s nVLogs oS with hc | ⟨o', hc⟩ | hc
    · rw [hc] at hne
      exact absurd rfl hne
    · rw [hc] at hne
      exact absurd rfl hne
    · rw [hc] at hne ⊢
      exact commitPhase_advanced s _ true hne

/-- Witness for C8 on the concrete store storeC: with a failing flush
(fourth oracle outcome) committedTxID and committedAlh stay put; with a
clean oracle both mayCommit and sync advance to the ceiling with both
records appended. -/
theorem mayCommit_sync_failure_atomic_witness :
    ((mayCommit storeC [true, true, true, false]).2.1.committedTxID
        = storeC.committedTxID ∧
      (mayCommit storeC [true, true, true, false]).2.1.committedAlh
        = storeC.committedAlh) ∧
    ((mayCommit storeC []).1 = .ok () ∧
      (mayCommit storeC []).2.1.committedTxID = commitAllowedUpTo storeC ∧
      (mayCommit storeC []).2.1.cLog
        = storeC.cLog.take storeC.committedTxID
          ++ (storeC.cLogBuf.records.take
              (commitAllowedUpTo storeC - storeC.committedTxID)).map
            (fun r => (r.txOff, r.txSize)) ∧
      (storeC.cLogBuf.records.get?
          (commitAllowedUpTo storeC - storeC.committedTxID - 1)).map CRecord.txID
        = some (commitAllowedUpTo storeC)) ∧
    ((syncStore storeC 1 []).1 = .ok () ∧
      (syncStore storeC 1 []).2.1.committedTxID = commitAllowedUpTo storeC ∧
      (syncStore storeC 1 []).2.1.cLog
        = storeC.cLog.take storeC.committedTxID
          ++ (storeC.cLogBuf.records.take
              (commitAllowedUpTo storeC - storeC.committedTxID)).map
            (fun r => (r.txOff, r.txSize)) ∧
      (storeC.cLogBuf.records.get?
          (commitAllowedUpTo storeC - storeC.committedTxID - 1)).map CRecord.txID
        = some (commitAllowedUpTo storeC)) :=
  ⟨(mayCommit_sync_failure_atomic storeC 1 [true, true, true, false] []).1
      .ioError rfl,
    (mayCommit_sync_failure_atomic storeC 1 [] []).2.1 (by decide),
    (mayCommit_sync_failure_atomic storeC 1 [] []).2.2.2 (by decide)⟩

theorem commitPhase_preserves (s : GoStore) (o : List Bool) (w : Bool) :
    (commitPhase s o w).2.1.closed = s.closed ∧
    (commitPhase s o w).2.1.useExternalCommitAllowance = s.useExternalCommitAllowance ∧
    (commitPhase s o w).2.1.inmemPrecommittedTxID = s.inmemPrecommittedTxID ∧
    (commitPhase s o w).2.1.commitAllowedUpToTxID = s.commitAllowedUpToTxID ∧
    (commitPhase s o w).2.1.synced = s.synced := by
  rcases hcp : commitPhase s o w with ⟨r, st2, o2⟩
  simp only [hcp]
  simp only [commitPhase] at hcp
  repeat' split at hcp
  all_goals (
    injection hcp with h1 h23
    injection h23 with h2 h3
    subst h2
    exact ⟨rfl, rfl, rfl, rfl, rfl⟩)

theorem commitPhase_zero (s : GoStore) (o : List Bool) (w : Bool)
    (h : commitAllowedUpTo s = s.committedTxID) :
    commitPhase s o w = (.ok (), s, o) := by
  simp only [commitPhase]
  rw [if_pos (by omega)]


theorem AllowCommitUpto_shape (s : GoStore) (k : Nat) (o : List Bool)
    (hOpen : s.closed = false) (hExt : s.useExternalCommitAllowance = true) :
    (k ≤ s.commitAllowedUpToTxID ∧ AllowCommitUpto s k o = (.ok (), s, o)) ∨
    (s.commitAllowedUpToTxID < k ∧
      AllowCommitUpto s k o
        = (if ¬ s.synced then
            mayCommit { s with commitAllowedUpToTxID := min k s.inmemPrecommittedTxID } o
          else
            (.ok (), { s with commitAllowedUpToTxID := min k s.inmemPrecommittedTxID }, o))) := by
  by_cases hk : k ≤ s.commitAllowedUpToTxID
  · left
    refine ⟨hk, ?_⟩
    unfold AllowCommitUpto
    rw [if_neg (by simp [hOpen]), if_neg (by simp [hExt]), if_pos hk]
  · right
    refine ⟨by omega, ?_⟩
    have hs1 : (if s.inmemPrecommittedTxID < k
          then { s with commitAllowedUpToTxID := s.inmemPrecommittedTxID }
          else { s with commitAllowedUpToTxID := k })
        = { s with commitAllowedUpToTxID := min k s.inmemPrecommittedTxID } := by
      split
      · congr 1
        omega
      · congr 1
        omega
    simp only [AllowCommitUpto]
    rw [if_neg (by simp [hOpen]), if_neg (by simp [hExt]), if_neg hk, hs1]


/-- C4 amended: whenever the current allowance does not exceed
inmemPrecommittedTxID (the invariant maintained as long as no allowed but
uncommitted transaction has been discarded), AllowCommitUpto(k) on an open
store with the external-allowance mode enabled sets the allowance to
max(previous, min(k, inmemPrecommittedTxID)) — never lowering it — and an
immediately subsequent call with k' < k leaves the allowance unchanged
and, when the first call succeeded, returns no error. -/
theorem AllowCommitUpto_monotone (s : GoStore) (k k' : Nat) (o o' : List Bool)
    (hOpen : s.closed = false) (hExt : s.useExternalCommitAllowance = true)
    (hInv : s.commitAllowedUpToTxID ≤ s.inmemPrecommittedTxID) (hk' : k' < k) :
    (AllowCommitUpto s k o).2.1.commitAllowedUpToTxID
      = max s.commitAllowedUpToTxID (min k s.inmemPrecommittedTxID) ∧
    s.commitAllowedUpToTxID ≤ (AllowCommitUpto s k o).2.1.commitAllowedUpToTxID ∧
    (AllowCommitUpto (AllowCommitUpto s k o).2.1 k' o').2.1.commitAllowedUpToTxID
      = (AllowCommitUpto s k o).2.1.commitAllowedUpToTxID ∧
    ((AllowCommitUpto s k o).1 = .ok () →
      (AllowCommitUpto (AllowCommitUpto s k o).2.1 k' o').1 = .ok ()) := by
  rcases AllowCommitUpto_shape s k o hOpen hExt with ⟨hk, hres⟩ | ⟨hk, hres⟩
  · -- first call is a no-op
    rw [hres]
    dsimp only
    rcases AllowCommitUpto_shape s k' o' hOpen hExt with ⟨hk2, hres2⟩ | ⟨hk2, hres2⟩
    · rw [hres2]
      exact ⟨by omega, by omega, rfl, fun _ => rfl⟩
    · exact absurd (by omega : k' ≤ s.commitAllowedUpToTxID) (by omega)
  · -- first call raises the allowance to min k inmem
    -- facts about the state after the first call
    have hpres := commitPhase_preserves
      { s with commitAllowedUpToTxID := min k s.inmemPrecommittedTxID } o false
    have hs' :
        (AllowCommitUpto s k o).2.1.commitAllowedUpToTxID = min k s.inmemPrecommittedTxID ∧
        (AllowCommitUpto s k o).2.1.closed = false ∧
        (AllowCommitUpto s k o).2.1.useExternalCommitAllowance = true ∧
        (AllowCommitUpto s k o).2.1.inmemPrecommittedTxID = s.inmemPrecommittedTxID ∧
        (AllowCommitUpto s k o).2.1.synced = s.synced := by
      rw [hres]
      by_cases hsy : s.synced = true
      · rw [if_neg (by simp [hsy])]
        exact ⟨rfl, hOpen, hExt, rfl, rfl⟩
      · rw [if_pos (by simp [Bool.not_eq_true] at hsy ⊢; exact hsy)]
        simp only [mayCommit] at hpres ⊢
        exact ⟨hpres.2.2.2.1, by rw [hpres.1]; exact hOpen,
          by rw [hpres.2.1]; exact hExt, hpres.2.2.1, hpres.2.2.2.2⟩
    obtain ⟨ha1, hcl, hex, him, hsy⟩ := hs'
    refine ⟨by omega, by omega, ?_, ?_⟩
    · -- second call leaves the allowance unchanged
      rcases AllowCommitUpto_shape (AllowCommitUpto s k o).2.1 k' o' hcl hex
        with ⟨hk2, hres2⟩ | ⟨hk2, hres2⟩
      · rw [hres2]
      · -- k' above the new allowance: only possible when min k inmem = inmem
        have hmin : min k s.inmemPrecommittedTxID = s.inmemPrecommittedTxID := by omega
        rw [hres2]
        have hminEq : min k' (AllowCommitUpto s k o).2.1.inmemPrecommittedTxID
            = min k s.inmemPrecommittedTxID := by
          rw [him]
          omega
        by_cases hsy2 : (AllowCommitUpto s k o).2.1.synced = true
        · rw [if_neg (by simp [hsy2])]
          rw [hminEq, ha1]
        · rw [if_pos (by simp [Bool.not_eq_true] at hsy2 ⊢; exact hsy2)]
          have hpres2 := commitPhase_preserves
            { (AllowCommitUpto s k o).2.1 with
                commitAllowedUpToTxID
                  := min k' (AllowCommitUpto s k o).2.1.inmemPrecommittedTxID } o' false
          simp only [mayCommit] at hpres2 ⊢
          rw [hpres2.2.2.2.1]
          rw [hminEq, ha1]
    · -- second call returns no error when the first one did
      intro hok
      rcases AllowCommitUpto_shape (AllowCommitUpto s k o).2.1 k' o' hcl hex
        with ⟨hk2, hres2⟩ | ⟨hk2, hres2⟩
      · rw [hres2]
      · have hmin : min k s.inmemPrecommittedTxID = s.inmemPrecommittedTxID := by omega
        rw [hres2]
        by_cases hsy2 : (AllowCommitUpto s k o).2.1.synced = true
        · rw [if_neg (by simp [hsy2])]
        · rw [if_pos (by simp [Bool.not_eq_true] at hsy2 ⊢; exact hsy2)]
          -- the first call ran mayCommit to completion: committed = allowance
          have hsyF : s.synced = false := by
            rw [← hsy]
            simp [Bool.not_eq_true] at hsy2
            exact hsy2
          have hresM : AllowCommitUpto s k o
              = mayCommit { s with commitAllowedUpToTxID := min k s.inmemPrecommittedTxID } o := by
            rw [hres, if_pos (by simp [hsyF])]
          have hcommitted : (AllowCommitUpto s k o).2.1.committedTxID
              = min k s.inmemPrecommittedTxID := by
            have hatom := (commitPhase_atomic
              { s with commitAllowedUpToTxID := min k s.inmemPrecommittedTxID } o false).2.1
            rw [hresM] at hok ⊢
            simp only [mayCommit] at hok ⊢
            have := hatom hok
            rw [this]
            simp [commitAllowedUpTo, hExt]
          -- the second mayCommit has nothing to commit
          have hzero := commitPhase_zero
            { (AllowCommitUpto s k o).2.1 with
                commitAllowedUpToTxID
                  := min k' (AllowCommitUpto s k o).2.1.inmemPrecommittedTxID } o' false
            (by
              simp only [commitAllowedUpTo]
              rw [if_neg (by simp [hex])]
              rw [him, hcommitted]
              omega)
          simp only [mayCommit]
          rw [hzero]

/-- C4 counterexample: on storeA (allowance 5, inmemPrecommittedTxID 2,
reachable by discarding allowed but uncommitted transactions), the
successful call AllowCommitUpto(6) sets the allowance to 2 instead of
max(5, min(6, 2)) = 5: the ceiling is lowered. -/
theorem AllowCommitUpto_claim_counterexample :
    (AllowCommitUpto storeA 6 []).1 = .ok () ∧
    (AllowCommitUpto storeA 6 []).2.1.commitAllowedUpToTxID = 2 ∧
    max storeA.commitAllowedUpToTxID (min 6 storeA.inmemPrecommittedTxID) = 5 ∧
    (AllowCommitUpto storeA 6 []).2.1.commitAllowedUpToTxID
      < storeA.commitAllowedUpToTxID :=
  ⟨rfl, rfl, rfl, by decide⟩

/-- Witness for amended C4 on storeE: AllowCommitUpto(5) raises the
allowance to 2 = max(0, min(5, 2)), and the subsequent AllowCommitUpto(3)
changes nothing and succeeds. -/
theorem AllowCommitUpto_monotone_witness :
    (AllowCommitUpto storeE 5 []).2.1.commitAllowedUpToTxID
      = max storeE.commitAllowedUpToTxID (min 5 storeE.inmemPrecommittedTxID) ∧
    storeE.commitAllowedUpToTxID ≤ (AllowCommitUpto storeE 5 []).2.1.commitAllowedUpToTxID ∧
    (AllowCommitUpto (AllowCommitUpto storeE 5 []).2.1 3 []).2.1.commitAllowedUpToTxID
      = (AllowCommitUpto storeE 5 []).2.1.commitAllowedUpToTxID ∧
    ((AllowCommitUpto storeE 5 []).1 = .ok () →
      (AllowCommitUpto (AllowCommitUpto storeE 5 []).2.1 3 []).1 = .ok ()) :=
  AllowCommitUpto_monotone storeE 5 3 [] [] rfl rfl (by decide) (by decide)

theorem validateEntriesLoop_ok_iff (s : GoStore) :
    ∀ (es : List EntrySpec) (seen : List (List Nat)),
    validateEntriesLoop s es seen = .ok () ↔
      ((∀ e ∈ es, e.key ≠ none) ∧
        (∀ e ∈ es, ∀ k, e.key = some k → k.length ≤ s.maxKeyLen) ∧
        (∀ e ∈ es, e.value.length ≤ s.maxValueLen) ∧
        (es.filterMap (fun e => e.key)).Nodup ∧
        (∀ kk ∈ es.filterMap (fun e => e.key), kk ∉ seen)) := by
  intro es
  induction es with
  | nil =>
    intro seen
    simp [validateEntriesLoop]
  | cons e rest ih =>
    intro seen
    rcases hkey : e.key with _ | k
    · simp only [validateEntriesLoop, hkey]
      constructor
      · intro h
        exact Except.noConfusion h
      · rintro ⟨hn, -⟩
        exact absurd hkey (hn e (by simp))
    · simp only [validateEntriesLoop, hkey]
      by_cases hkl : s.maxKeyLen < k.length
      · rw [if_pos hkl]
        constructor
        · intro h
          exact Except.noConfusion h
        · rintro ⟨-, hl, -⟩
          exact absurd (hl e (by simp) k hkey) (by omega)
      · rw [if_neg hkl]
        by_cases hvl : s.maxValueLen < e.value.length
        · rw [if_pos hvl]
          constructor
          · intro h
            exact Except.noConfusion h
          · rintro ⟨-, -, hv, -⟩
            exact absurd (hv e (by simp)) (by omega)
        · rw [if_neg hvl]
          by_cases hseen : k ∈ seen
          · rw [if_pos hseen]
            constructor
            · intro h
              exact Except.noConfusion h
            · rintro ⟨-, -, -, -, hns⟩
              exact absurd hseen (hns k (by simp [List.filterMap_cons, hkey]))
          · rw [if_neg hseen]
            rw [ih (k :: seen)]
            simp only [List.filterMap_cons, hkey, List.mem_cons, List.nodup_cons,
              List.mem_singleton, forall_eq_or_imp, ne_eq, List.mem_filterMap]
            constructor
            · rintro ⟨hn, hl, hv, hnd, hns⟩
              refine ⟨⟨by simp, hn⟩, ⟨?_, hl⟩, ⟨by omega, hv⟩, ⟨?_, hnd⟩, hseen, ?_⟩
              · intro k1 hk1
                injection hk1 with hk1
                subst hk1
                omega
              · rintro ⟨a, ha, hak⟩
                exact hns k ⟨a, ha, hak⟩ (Or.inl rfl)
              · intro a hex hin
                exact hns a hex (Or.inr hin)
            · rintro ⟨⟨-, hn⟩, ⟨-, hl⟩, ⟨-, hv⟩, ⟨hnk, hnd⟩, hkse, hns⟩
              refine ⟨hn, hl, hv, hnd, ?_⟩
              intro kk hex hor
              rcases hor with heqk | hin
              · subst heqk
                exact hnk hex
              · exact hns kk hex hin


theorem validateEntriesLoop_error_nullKey (s : GoStore) :
    ∀ (es : List EntrySpec) (seen : List (List Nat)),
    validateEntriesLoop s es seen = .error .nullKey → ∃ e ∈ es, e.key = none := by
  intro es
  induction es with
  | nil =>
    intro seen h
    exact absurd h (by simp [validateEntriesLoop])
  | cons e rest ih =>
    intro seen h
    rcases hkey : e.key with _ | k
    · exact ⟨e, by simp, hkey⟩
    · simp only [validateEntriesLoop, hkey] at h
      repeat' split at h
      all_goals first
        | (exact absurd h (by simp))
        | (obtain ⟨e1, he1, hk1⟩ := ih _ h
           exact ⟨e1, by simp [he1], hk1⟩)

theorem validateEntriesLoop_error_maxKeyLen (s : GoStore) :
    ∀ (es : List EntrySpec) (seen : List (List Nat)),
    validateEntriesLoop s es seen = .error .maxKeyLenExceeded →
    ∃ e ∈ es, ∃ k, e.key = some k ∧ s.maxKeyLen < k.length := by
  intro es
  induction es with
  | nil =>
    intro seen h
    exact absurd h (by simp [validateEntriesLoop])
  | cons e rest ih =>
    intro seen h
    rcases hkey : e.key with _ | k
    · simp only [validateEntriesLoop, hkey] at h
      exact absurd h (by simp)
    · simp only [validateEntriesLoop, hkey] at h
      by_cases hkl : s.maxKeyLen < k.length
      · exact ⟨e, by simp, k, hkey, hkl⟩
      · rw [if_neg hkl] at h
        repeat' split at h
        all_goals first
          | (exact absurd h (by simp))
          | (obtain ⟨e1, he1, hk1⟩ := ih _ h
             exact ⟨e1, by simp [he1], hk1⟩)

theorem validateEntriesLoop_error_maxValueLen (s : GoStore) :
    ∀ (es : List EntrySpec) (seen : List (List Nat)),
    validateEntriesLoop s es seen = .error .maxValueLenExceeded →
    ∃ e ∈ es, s.maxValueLen < e.value.length := by
  intro es
  induction es with
  | nil =>
    intro seen h
    exact absurd h (by simp [validateEntriesLoop])
  | cons e rest ih =>
    intro seen h
    rcases hkey : e.key with _ | k
    · simp only [validateEntriesLoop, hkey] at h
      exact absurd h (by simp)
    · simp only [validateEntriesLoop, hkey] at h
      by_cases hvl : s.maxValueLen < e.value.length
      · exact ⟨e, by simp, hvl⟩
      · repeat' split at h
        all_goals first
          | (exact absurd h (by simp))
          | (obtain ⟨e1, he1, hk1⟩ := ih _ h
             exact ⟨e1, by simp [he1], hk1⟩)

theorem validateEntriesLoop_error_dup (s : GoStore) :
    ∀ (es : List EntrySpec) (seen : List (List Nat)),
    validateEntriesLoop s es seen = .error .duplicatedKey →
    ¬ ((es.filterMap (fun e => e.key)).Nodup ∧
        ∀ kk ∈ es.filterMap (fun e => e.key), kk ∉ seen) := by
  intro es
  induction es with
  | nil =>
    intro seen h
    exact absurd h (by simp [validateEntriesLoop])
  | cons e rest ih =>
    intro seen h
    rcases hkey : e.key with _ | k
    · simp only [validateEntriesLoop, hkey] at h
      exact absurd h (by simp)
    · simp only [validateEntriesLoop, hkey] at h
      by_cases hkl : s.maxKeyLen < k.length
      · rw [if_pos hkl] at h
        exact absurd h (by simp)
      · rw [if_neg hkl] at h
        by_cases hvl : s.maxValueLen < e.value.length
        · rw [if_pos hvl] at h
          exact absurd h (by simp)
        · rw [if_neg hvl] at h
          by_cases hseen : k ∈ seen
          · rintro ⟨-, hns⟩
            exact hns k (by simp [List.filterMap_cons, hkey]) hseen
          · rw [if_neg hseen] at h
            have hrec := ih _ h
            rintro ⟨hnd, hns⟩
            refine hrec ⟨?_, ?_⟩
            · simp only [List.filterMap_cons, hkey, List.nodup_cons] at hnd
              exact hnd.2
            · intro kk hkk hor
              simp only [List.filterMap_cons, hkey, List.nodup_cons] at hnd
              rcases List.mem_cons.mp hor with heq | hin
              · subst heq
                exact hnd.1 hkk
              · exact hns kk (by simp [List.filterMap_cons, hkey, hkk]) hin


theorem validateEntriesLoop_not_maxTx (s : GoStore) :
    ∀ (es : List EntrySpec) (seen : List (List Nat)),
    validateEntriesLoop s es seen ≠ .error .maxTxEntriesLimitExceeded := by
  intro es
  induction es with
  | nil =>
    intro seen h
    exact absurd h (by simp [validateEntriesLoop])
  | cons e rest ih =>
    intro seen h
    rcases hkey : e.key with _ | k
    · simp [validateEntriesLoop, hkey] at h
    · simp only [validateEntriesLoop, hkey] at h
      repeat' split at h
      all_goals first
        | (exact absurd h (by simp))
        | (exact ih _ h)

/-- C3: validateEntries accepts a transaction exactly when the entry
count is within MaxTxEntries, every key is non-null and within MaxKeyLen,
every value is within MaxValueLen and no two entries share a key; each
failure returns the matching error, and a precommit whose entry
validation fails returns that error with the engine state unchanged. -/
theorem validateEntries_spec (s : GoStore) (es : List EntrySpec) :
    (validateEntries s es = .ok () ↔
      (es.length ≤ s.maxTxEntries ∧
        (∀ e ∈ es, e.key ≠ none) ∧
        (∀ e ∈ es, ∀ k, e.key = some k → k.length ≤ s.maxKeyLen) ∧
        (∀ e ∈ es, e.value.length ≤ s.maxValueLen) ∧
        (es.filterMap (fun e => e.key)).Nodup)) ∧
    (validateEntries s es = .error .maxTxEntriesLimitExceeded →
      s.maxTxEntries < es.length) ∧
    (validateEntries s es = .error .nullKey → ∃ e ∈ es, e.key = none) ∧
    (validateEntries s es = .error .maxKeyLenExceeded →
      ∃ e ∈ es, ∃ k, e.key = some k ∧ s.maxKeyLen < k.length) ∧
    (validateEntries s es = .error .maxValueLenExceeded →
      ∃ e ∈ es, s.maxValueLen < e.value.length) ∧
    (validateEntries s es = .error .duplicatedKey →
      ¬ (es.filterMap (fun e => e.key)).Nodup) ∧
    (∀ err, validateEntries s es = .error err →
      ∀ (otx : OngoingTx) (hdr : Option TxHeader) (skip : Bool) (o : List Bool),
        otx.entries = es → otx.validateAgainst hdr = true →
        ¬ (otx.entries.isEmpty ∧ mdIsEmpty otx.metadata) →
        precommit s otx hdr skip o = (.error err, s, o)) := by
  refine ⟨?_, ?_, ?_, ?_, ?_, ?_, ?_⟩
  · unfold validateEntries
    by_cases hc : s.maxTxEntries < es.length
    · rw [if_pos hc]
      constructor
      · intro h
        exact Except.noConfusion h
      · rintro ⟨hlen, -⟩
        omega
    · rw [if_neg hc]
      rw [validateEntriesLoop_ok_iff]
      constructor
      · rintro ⟨hn, hl, hv, hnd, -⟩
        exact ⟨by omega, hn, hl, hv, hnd⟩
      · rintro ⟨-, hn, hl, hv, hnd⟩
        exact ⟨hn, hl, hv, hnd, by simp⟩
  · unfold validateEntries
    by_cases hc : s.maxTxEntries < es.length
    · intro _
      exact hc
    · rw [if_neg hc]
      intro h
      exact absurd h (validateEntriesLoop_not_maxTx s es [])
  · unfold validateEntries
    by_cases hc : s.maxTxEntries < es.length
    · rw [if_pos hc]
      intro h
      injection h with h
      exact Err.noConfusion h
    · rw [if_neg hc]
      exact validateEntriesLoop_error_nullKey s es []
  · unfold validateEntries
    by_cases hc : s.maxTxEntries < es.length
    · rw [if_pos hc]
      intro h
      injection h with h
      exact Err.noConfusion h
    · rw [if_neg hc]
      exact validateEntriesLoop_error_maxKeyLen s es []
  · unfold validateEntries
    by_cases hc : s.maxTxEntries < es.length
    · rw [if_pos hc]
      intro h
      injection h with h
      exact Err.noConfusion h
    · rw [if_neg hc]
      exact validateEntriesLoop_error_maxValueLen s es []
  · unfold validateEntries
    by_cases hc : s.maxTxEntries < es.length
    · rw [if_pos hc]
      intro h
      injection h with h
      exact Err.noConfusion h
    · rw [if_neg hc]
      intro h
      have := validateEntriesLoop_error_dup s es [] h
      intro hnd
      exact this ⟨hnd, by simp⟩
  · intro err herr otx hdr skip o hes hva hne
    unfold precommit
    rw [if_neg (by simp [hva]), if_neg hne, hes, herr]

/-- Witness for C3: a single-entry transaction passes validation; the
two entries sharing key k are rejected, and the precommit of that
transaction fails with DuplicatedKey leaving the store untouched. -/
theorem validateEntries_spec_witness :
    validateEntries storeC [eK1] = .ok () ∧
    ¬ (([eK1, eK2].filterMap (fun e => e.key)).Nodup) ∧
    precommit storeC otxDup none false [] = (.error .duplicatedKey, storeC, []) :=
  ⟨(validateEntries_spec storeC [eK1]).1.mpr (by decide),
    (validateEntries_spec storeC [eK1, eK2]).2.2.2.2.2.1 rfl,
    (validateEntries_spec storeC [eK1, eK2]).2.2.2.2.2.2 .duplicatedKey rfl
      otxDup none false [] rfl rfl (by decide)⟩

/-- C9: replaying an exported transaction whose header ID is at or below
the engine's last precommitted transaction ID through precommit with the
expected header (the ReplicateTx path) fails with TxAlreadyCommitted; no
transaction is appended: the tx log, AHT, precommit buffer and
inmemPrecommittedTxID are untouched, only the already-written value bytes
remain in the value log. -/
theorem precommit_replay_already_committed (s : GoStore) (otx : OngoingTx)
    (h : TxHeader) (skip : Bool) (o : List Bool)
    (hva : otx.validateAgainst (some h) = true)
    (hne : ¬ (otx.entries.isEmpty ∧ mdIsEmpty otx.metadata))
    (hve : validateEntries s otx.entries = .ok ())
    (hvp : validatePreconditions s otx.preconditions = .ok ())
    (heh : skip = true ∨ ehOf (fillEntries otx.entries) = h.eh)
    (hid : h.id ≤ s.inmemPrecommittedTxID) :
    precommit s otx (some h) skip o
      = (.error .txAlreadyCommitted,
          { s with vLog := (appendValues s.vLog otx.entries).2 }, o) := by
  unfold precommit
  rw [if_neg (by simp [hva]), if_neg hne]
  simp only [hve, hvp]
  rw [if_neg ?heh1]
  case heh1 =>
    rcases heh with hsk | hehe
    · simp [hsk]
    · simp [hehe]
  rw [if_pos hid]

/-- Witness for C9: replaying the exported tx 1 into storeC (whose last
precommitted transaction is 2) fails with TxAlreadyCommitted. -/
theorem precommit_replay_already_committed_witness :
    precommit storeC otxR (some hR) false []
      = (.error .txAlreadyCommitted,
          { storeC with vLog := (appendValues storeC.vLog otxR.entries).2 }, []) :=
  precommit_replay_already_committed storeC otxR hR false [] rfl (by decide)
    rfl rfl (Or.inr rfl) (by decide)

end ImmuDB
